import Mathlib

/-!
# Block-seeded three-card poker: hand evaluator and session state machine

A shallow embedding of `src/poker.h`, `src/poker.cpp` and `src/rpc/poker_rpc.cpp`.

* C++ `int` is a 32-bit two's-complement integer, modelled as `Int` with explicit
  wrap-around (`wrap32`) where an operation can leave the 32-bit range.
* `enum class Rank` / `enum class Suit` have underlying type `int`; a card stores the
  underlying values.
* `std::vector<Card>` is a `List Card`; `back()` is the last element.
* Reading out of bounds is undefined behaviour in C++; the embedding returns `none`
  (or reports `Exn.undefined_behaviour`) there.
* A call that may throw returns an `Outcome`: the exception, if any, and the state the call
  left behind.
* Overflow of `round++` is undefined behaviour in C++ and is reported in the same way; it
  cannot happen in a state reached from a tip change, where the round stays in 1..9.
* The mutex is not part of the state: the functions are sequential. Where the mutex is taken
  and which members are used outside it is recorded separately, as a sequence of accesses.
-/

namespace Poker

/-! ## Card model (`poker.h`) -/

/-- Underlying value of `enum class Suit { Hearts, Diamonds, Spades, Clubs }`. -/
abbrev Suit := Int

/-- Underlying value of `enum class Rank { Two = 2, ..., Ace }`. -/
abbrev Rank := Int

def Suit.Hearts : Suit := 0
def Suit.Diamonds : Suit := 1
def Suit.Spades : Suit := 2
def Suit.Clubs : Suit := 3

def Rank.Two : Rank := 2
def Rank.Three : Rank := 3
def Rank.Four : Rank := 4
def Rank.Five : Rank := 5
def Rank.Six : Rank := 6
def Rank.Seven : Rank := 7
def Rank.Eight : Rank := 8
def Rank.Nine : Rank := 9
def Rank.Ten : Rank := 10
def Rank.Jack : Rank := 11
def Rank.Queen : Rank := 12
def Rank.King : Rank := 13
def Rank.Ace : Rank := 14

/-- The `struct Card` of `poker.h`: a rank and a suit, each held as the underlying `int` of
its enumeration (`Rank`, `Suit`). -/
structure Card where
  rank : Int
  suit : Int
deriving DecidableEq, Repr

/-- A card whose rank is one of the enumerators `Two .. Ace`. -/
def Card.rankInRange (c : Card) : Prop := 2 ≤ c.rank ∧ c.rank ≤ 14

instance (c : Card) : Decidable c.rankInRange :=
  inferInstanceAs (Decidable (_ ∧ _))

/-! ## 32-bit `int` arithmetic -/

/-- Reduction of a mathematical integer to the 32-bit two's-complement range. -/
def wrap32 (x : Int) : Int := (x + 2 ^ 31) % 2 ^ 32 - 2 ^ 31

/-- The operator `x << k` on `int`. -/
def shl32 (x : Int) (k : Nat) : Int := wrap32 (x * 2 ^ k)

/-- The operator `x >> k` on `int` (arithmetic shift). -/
def shr32 (x : Int) (k : Nat) : Int := x >>> k

/-- The operator `x | y` on `int`. -/
def or32 (x y : Int) : Int := Int.lor x y

/-- The operator `x & y` on `int`. -/
def and32 (x y : Int) : Int := Int.land x y

/-! ## Hand evaluator (`poker.cpp`) -/

/-- The call `std::sort(ranks.begin(), ranks.end(), std::greater<int>())`. -/
def sortDescending (ranks : List Int) : List Int :=
  ranks.insertionSort (fun a b => b ≤ a)

/-- The `std::set<Suit>` filled by the loop over the hand, as a duplicate-free list. -/
def collectSuits (hand : List Card) : List Int :=
  hand.foldl (fun suits card => suits.insert card.suit) []

/-- The category chain of `EvaluateHand` (`hand_rank`), on the sorted and possibly
remapped ranks. -/
def handRank (is_straight is_flush : Bool) (r0 r1 r2 : Int) : Int :=
  if is_straight && is_flush then 6
  else if r0 = r1 ∧ r1 = r2 then 5
  else if is_straight then 4
  else if is_flush then 3
  else if r0 = r1 ∨ r1 = r2 then 2
  else 1

/-- The packing of `EvaluateHand`: `score = hand_rank << 28`, then the rank fields
are or-ed in. -/
def packScore (hand_rank r0 r1 r2 : Int) : Int :=
  let score := shl32 hand_rank 28
  if hand_rank = 2 then
    if r0 = r1 then
      or32 score (or32 (shl32 r0 24) (shl32 r2 20))
    else
      or32 score (or32 (shl32 r1 24) (shl32 r0 20))
  else
    or32 score (or32 (or32 (shl32 r0 24) (shl32 r1 20)) (shl32 r2 16))

/-- The function `PokerWorker::EvaluateHand`. `none` stands for the undefined behaviour of
indexing `ranks[0..2]` on a hand of fewer than three cards. -/
def EvaluateHand (hand : List Card) : Option Int :=
  let ranks := sortDescending (hand.map (fun card => card.rank))
  let suits := collectSuits hand
  let is_flush : Bool := suits.length == 1
  match ranks with
  | r0 :: r1 :: r2 :: _ =>
    if r0 - 1 = r1 ∧ r1 - 1 = r2 then
      some (packScore (handRank true is_flush r0 r1 r2) r0 r1 r2)
    else if r0 = 14 ∧ r1 = 3 ∧ r2 = 2 then
      some (packScore (handRank true is_flush 3 2 1) 3 2 1)
    else
      some (packScore (handRank false is_flush r0 r1 r2) r0 r1 r2)
  | _ => none

/-- The lambda `rankToString` inside `GetHandDescription`. -/
def rankToString (rank : Int) : String :=
  if rank = 14 then "A"
  else if rank = 13 then "K"
  else if rank = 12 then "Q"
  else if rank = 11 then "J"
  else if rank = 10 then "10"
  else toString rank

/-- The function `PokerWorker::GetHandDescription`. -/
def GetHandDescription (score : Int) : String :=
  let handType := and32 (shr32 score 28) 0xF
  let card1 := and32 (shr32 score 24) 0xF
  let card2 := and32 (shr32 score 20) 0xF
  let card3 := and32 (shr32 score 16) 0xF
  if handType = 6 then
    "Straight Flush" ++ " (" ++ ("high " ++ rankToString card1) ++ ")"
  else if handType = 5 then
    "Three of a Kind" ++ " (" ++ (rankToString card1 ++ "s") ++ ")"
  else if handType = 4 then
    "Straight" ++ " (" ++ ("high " ++ rankToString card1) ++ ")"
  else if handType = 3 then
    "Flush" ++ " (" ++ (rankToString card1 ++ "-" ++ rankToString card2 ++ "-" ++ rankToString card3) ++ ")"
  else if handType = 2 then
    "Pair" ++ " (" ++ ("of " ++ rankToString card1 ++ "s with " ++ rankToString card2 ++ " kicker") ++ ")"
  else if handType = 1 then
    "High Card" ++ " (" ++ (rankToString card1 ++ "-" ++ rankToString card2 ++ "-" ++ rankToString card3) ++ ")"
  else
    "Unknown hand"

/-! ## The ranking rules in the words of the specification

These definitions do not come from the code: they restate the rules of the hand
evaluator as the specification gives them, on the three cards in the order they were
dealt, so that the code can be compared with them. -/

/-- The highest of the three ranks. -/
def specHigh (a b c : Card) : Int := max a.rank (max b.rank c.rank)

/-- The lowest of the three ranks. -/
def specLow (a b c : Card) : Int := min a.rank (min b.rank c.rank)

/-- The middle one of the three ranks. -/
def specMid (a b c : Card) : Int := a.rank + b.rank + c.rank - specHigh a b c - specLow a b c

/-- Flush: all three suits identical. -/
def specFlush (a b c : Card) : Prop := a.suit = b.suit ∧ b.suit = c.suit

/-- The wheel: the ranks are `{14, 3, 2}`. -/
def specWheel (a b c : Card) : Prop := specHigh a b c = 14 ∧ specMid a b c = 3 ∧ specLow a b c = 2

/-- Straight: the sorted ranks satisfy `r0 = r1 + 1 = r2 + 2`, or they are `{14, 3, 2}`. -/
def specStraight (a b c : Card) : Prop :=
  (specHigh a b c = specMid a b c + 1 ∧ specMid a b c + 1 = specLow a b c + 2) ∨ specWheel a b c

/-- All three ranks equal. -/
def specTrips (a b c : Card) : Prop := a.rank = b.rank ∧ b.rank = c.rank

/-- Exactly two of the three ranks are equal. -/
def specPair (a b c : Card) : Prop :=
  (a.rank = b.rank ∨ b.rank = c.rank ∨ a.rank = c.rank) ∧ ¬ specTrips a b c

instance (a b c : Card) : Decidable (specFlush a b c) :=
  inferInstanceAs (Decidable (_ ∧ _))
instance (a b c : Card) : Decidable (specWheel a b c) :=
  inferInstanceAs (Decidable (_ ∧ _))
instance (a b c : Card) : Decidable (specStraight a b c) :=
  inferInstanceAs (Decidable (_ ∨ _))
instance (a b c : Card) : Decidable (specTrips a b c) :=
  inferInstanceAs (Decidable (_ ∧ _))
instance (a b c : Card) : Decidable (specPair a b c) :=
  inferInstanceAs (Decidable (_ ∧ _))

/-- The category of three cards: 6 straight flush, 5 three of a kind, 4 straight, 3 flush,
2 pair, 1 high card. -/
def specCategory3 (a b c : Card) : Int :=
  if specStraight a b c ∧ specFlush a b c then 6
  else if specTrips a b c then 5
  else if specStraight a b c then 4
  else if specFlush a b c then 3
  else if specPair a b c then 2
  else 1

/-- The rank that occurs twice, for a hand with a pair. -/
def specPairedRank (a b c : Card) : Int :=
  if a.rank = b.rank then a.rank else if a.rank = c.rank then a.rank else b.rank

/-- The lone rank (kicker), for a hand with a pair. -/
def specKicker (a b c : Card) : Int :=
  if a.rank = b.rank then c.rank else if a.rank = c.rank then b.rank else a.rank

/-- The three rank fields of the score: paired rank, kicker and 0 for a pair; otherwise the
ranks in descending order, the wheel counted as 3, 2, 1. -/
def specFields3 (a b c : Card) : Int × Int × Int :=
  if specCategory3 a b c = 2 then (specPairedRank a b c, specKicker a b c, 0)
  else if specWheel a b c then (3, 2, 1)
  else (specHigh a b c, specMid a b c, specLow a b c)

/-- The tiebreak of three cards: (paired rank, kicker) for a pair, the three ranks in
descending order otherwise, the wheel counted as 3, 2, 1. -/
def specTiebreak3 (a b c : Card) : List Int :=
  if specCategory3 a b c = 2 then [specPairedRank a b c, specKicker a b c]
  else if specWheel a b c then [3, 2, 1]
  else [specHigh a b c, specMid a b c, specLow a b c]

/-- Strict lexicographic order on rank sequences, greater first. -/
def lexGreater : List Int → List Int → Prop
  | x :: xs, y :: ys => x > y ∨ (x = y ∧ lexGreater xs ys)
  | _ :: _, [] => True
  | [], _ => False

/-- The rendering of a rank in a description: `A`, `K`, `Q`, `J` for 14, 13, 12, 11 and the
decimal numeral for every other rank. -/
def specRankName (r : Int) : String :=
  if r = 14 then "A" else if r = 13 then "K" else if r = 12 then "Q" else if r = 11 then "J"
  else toString r

/-- The name of a category. -/
def specCategoryName (category : Int) : String :=
  if category = 6 then "Straight Flush"
  else if category = 5 then "Three of a Kind"
  else if category = 4 then "Straight"
  else if category = 3 then "Flush"
  else if category = 2 then "Pair"
  else "High Card"

/-- The tiebreak text of three cards: `high R` for straight flush and straight, `Rs` for three
of a kind, `of Ps with K kicker` for a pair, `R0-R1-R2` for flush and high card. -/
def specTiebreakText (a b c : Card) : String :=
  let f := specFields3 a b c
  let category := specCategory3 a b c
  if category = 6 ∨ category = 4 then "high " ++ specRankName f.1
  else if category = 5 then specRankName f.1 ++ "s"
  else if category = 2 then "of " ++ specRankName f.1 ++ "s with " ++ specRankName f.2.1 ++ " kicker"
  else specRankName f.1 ++ "-" ++ specRankName f.2.1 ++ "-" ++ specRankName f.2.2

/-- The description of three cards: category name, then the tiebreak in parentheses. -/
def specDescription (a b c : Card) : String :=
  specCategoryName (specCategory3 a b c) ++ " (" ++ specTiebreakText a b c ++ ")"

/-! ## Session state (`poker.h`) and its transitions (`poker.cpp`, `rpc/poker_rpc.cpp`) -/

/-- A block hash (`uint256`), as the number it holds. -/
abbrev uint256 := Nat

/-- The part of `CBlockIndex` that the poker code reads: the block hash. -/
structure CBlockIndex where
  blockHash : uint256
deriving DecidableEq

/-- The method `CBlockIndex::GetBlockHash`. -/
def CBlockIndex.GetBlockHash (new_tip : CBlockIndex) : uint256 := new_tip.blockHash

/-- The part of `node::NodeContext` that the poker code reads: whether the `wallet_loader`
pointer is set. -/
structure NodeContext where
  wallet_loader : Bool
deriving DecidableEq

/-- Library functions that the poker code calls and whose code is not part of it. They are
parameters of the model: every theorem holds for each choice of them. -/
structure Library where
  /-- The method `uint256::GetHex`: the hex string of a block hash. -/
  GetHex : uint256 → String
  /-- The exchanges of positions that `std::shuffle` performs on a range of the given length
  when it is driven by a `std::mt19937` seeded with the `std::seed_seq` of the given string.
  The generator is rebuilt from the string on every call, so the exchanges depend on the
  string and the length only. -/
  shuffleSwaps : String → Nat → List (Nat × Nat)

/-- RPC error codes used by the poker commands. -/
inductive RPCErrorCode where
  | RPC_MISC_ERROR
  | RPC_INVALID_PARAMETER
deriving DecidableEq, Repr

/-- The exceptions thrown by the poker code. `undefined_behaviour` is not an exception: it
marks an execution that reads `back()` of an empty vector, indexes a vector out of range or
overflows a signed `int`. -/
inductive Exn where
  | runtime_error (what : String)
  | JSONRPCError (code : RPCErrorCode) (message : String)
  | undefined_behaviour
deriving DecidableEq, Repr

/-- The data members of `class PokerWorker`. The top of the deck is the last element. -/
structure PokerWorker where
  playerHand : List Card
  satoshisHand : List Card
  deck : List Card
  currentBlockHash : String
  round : Int
  m_running : Bool
  m_shutdown : Bool
  m_node : NodeContext
deriving DecidableEq

/-- The method `PokerWorker::Stop`. -/
def Stop (w : PokerWorker) : PokerWorker := { w with m_running := false }

/-- The method `PokerWorker::GenerateDeck`: clear the deck, then push the 52 cards, suits
`0..3` in the outer loop and ranks `2..14` in the inner loop. -/
def GenerateDeck (w : PokerWorker) : PokerWorker :=
  let deck : List Card := []
  let deck := (List.range 4).foldl (fun deck s =>
    (List.range' 2 13).foldl (fun deck r => deck ++ [Card.mk (r : Int) (s : Int)]) deck) deck
  { w with deck := deck }

/-- Exchange of the elements at positions `i` and `j`; nothing happens when a position is
outside the list. -/
def swapAt {α : Type} (l : List α) (i j : Nat) : List α :=
  match l[i]?, l[j]? with
  | some x, some y => (l.set i y).set j x
  | _, _ => l

/-- A sequence of exchanges, applied from left to right. -/
def applySwaps {α : Type} (swaps : List (Nat × Nat)) (l : List α) : List α :=
  swaps.foldl (fun acc p => swapAt acc p.1 p.2) l

/-- The method `PokerWorker::ShuffleDeck`: `std::shuffle` of the deck, driven by a generator
seeded from the hex string of the block hash. -/
def ShuffleDeck (lib : Library) (blockHash : uint256) (w : PokerWorker) : PokerWorker :=
  let seedStr := lib.GetHex blockHash
  { w with deck := applySwaps (lib.shuffleSwaps seedStr w.deck.length) w.deck }

/-- The method `PokerWorker::ActiveTipChange`. -/
def ActiveTipChange (lib : Library) (new_tip : CBlockIndex) (is_ibd : Bool) (w : PokerWorker) :
    PokerWorker :=
  if is_ibd then w
  else if !w.m_running then w
  else if !w.m_node.wallet_loader then w
  else
    let latest_block := new_tip.GetBlockHash
    let w := { w with currentBlockHash := lib.GetHex latest_block }
    let w := { w with round := 1 }
    let w := { w with playerHand := [] }
    let w := { w with satoshisHand := [] }
    let w := GenerateDeck w
    ShuffleDeck lib latest_block w

/-- How a call that may throw ends: the exception that left it, if any, and the worker as the
call left it. A throw does not undo the changes made before it. -/
structure Outcome where
  thrown : Option Exn
  worker : PokerWorker
deriving DecidableEq

/-- One pass of the loop body of `DealCards`: the top card to the player, the next to the
opponent. -/
def dealOne (w : PokerWorker) : Outcome :=
  match w.deck.getLast? with
  | none => ⟨some .undefined_behaviour, w⟩
  | some c1 =>
    let w := { w with playerHand := w.playerHand ++ [c1] }
    let w := { w with deck := w.deck.dropLast }
    match w.deck.getLast? with
    | none => ⟨some .undefined_behaviour, w⟩
    | some c2 =>
      let w := { w with satoshisHand := w.satoshisHand ++ [c2] }
      let w := { w with deck := w.deck.dropLast }
      ⟨none, w⟩

/-- The loop `for (int i = 0; i < 3; i++)` of `DealCards`, with the number of passes left. -/
def dealLoop : Nat → PokerWorker → Outcome
  | 0, w => ⟨none, w⟩
  | n + 1, w =>
    match dealOne w with
    | ⟨some e, w⟩ => ⟨some e, w⟩
    | ⟨none, w⟩ => dealLoop n w

/-- The method `PokerWorker::DealCards`. -/
def DealCards (w : PokerWorker) : Outcome :=
  if w.deck.length < 6 then
    ⟨some (.runtime_error "Not enough cards to deal. Game over! Wait for the next block!"), w⟩
  else
    let w := { w with playerHand := [] }
    let w := { w with satoshisHand := [] }
    dealLoop 3 w

/-- The state change of the RPC handler `handleDeal`; the text it returns, a rendering of the
new state, is left out. -/
def handleDeal (w : PokerWorker) : Outcome :=
  if w.deck.length < 3 then
    ⟨some (.JSONRPCError .RPC_MISC_ERROR "Not enough cards to deal. Wait for the next block!"), w⟩
  else if !w.playerHand.isEmpty then
    ⟨some (.JSONRPCError .RPC_MISC_ERROR "Player cards are already dealt"), w⟩
  else
    DealCards w

/-- The largest value of a 32-bit `int`. -/
def INT_MAX : Int := 2147483647

/-- The statement `round++` on an `int`: `none` stands for the undefined behaviour of signed
overflow. -/
def incrementInt (x : Int) : Option Int :=
  if x = INT_MAX then none else some (x + 1)

/-- The parts of the text returned by `handlePlay`: block hash, round, the two hand
descriptions and the result line; `winner` is the local variable of that name. The card
pictures drawn by `renderCards` are left out. -/
structure PlayReport where
  block_hash : String
  round : Int
  playerDescription : String
  satoshiDescription : String
  winner : Bool
  resultLine : String
deriving DecidableEq

/-- How a call of `handlePlay` ends: as for `Outcome`, with the report when one is returned. -/
structure PlayOutcome where
  thrown : Option Exn
  worker : PokerWorker
  report : Option PlayReport
deriving DecidableEq

/-- The RPC handler `handlePlay`. -/
def handlePlay (w : PokerWorker) : PlayOutcome :=
  if w.playerHand.isEmpty then
    ⟨some (.JSONRPCError .RPC_MISC_ERROR
      "Player cards are not dealt! (Or a new block has been mined)"), w, none⟩
  else
    let block_hash := w.currentBlockHash
    match EvaluateHand w.playerHand with
    | none => ⟨some .undefined_behaviour, w, none⟩
    | some player_score =>
      match EvaluateHand w.satoshisHand with
      | none => ⟨some .undefined_behaviour, w, none⟩
      | some satoshi_score =>
        let round := w.round
        let playerDescription := GetHandDescription player_score
        let satoshiDescription := GetHandDescription satoshi_score
        let winner : Bool := decide (player_score > satoshi_score)
        match incrementInt w.round with
        | none => ⟨some .undefined_behaviour, w, none⟩
        | some next =>
          let w := { w with round := next }
          let w := { w with playerHand := [] }
          let w := { w with satoshisHand := [] }
          let resultLine := if winner then "Result: You won!\n" else "Result: You lost!\n"
          ⟨none, w, some ⟨block_hash, round, playerDescription, satoshiDescription, winner,
            resultLine⟩⟩

/-- The state change of the RPC handler `handleFold`; it returns a fixed text. -/
def handleFold (w : PokerWorker) : Outcome :=
  if w.playerHand.isEmpty then
    ⟨some (.JSONRPCError .RPC_MISC_ERROR "Already folded, or cards not dealt"), w⟩
  else
    match incrementInt w.round with
    | none => ⟨some .undefined_behaviour, w⟩
    | some next =>
      let w := { w with round := next }
      let w := { w with playerHand := [] }
      let w := { w with satoshisHand := [] }
      ⟨none, w⟩

/-! ## Accesses to the session and to its mutex

The same functions once more, this time recording in program order when `m_deck_mutex` is
taken and released (`LOCK` releases at the end of the enclosing function) and which data
member of the session each statement reads or writes. -/

/-- The data members that make up the session. -/
inductive Field where
  | deck
  | playerHand
  | satoshisHand
  | round
  | currentBlockHash
deriving DecidableEq, Repr

/-- An access to the session or to its mutex. -/
inductive Event where
  | lock
  | unlock
  | read (f : Field)
  | write (f : Field)
deriving DecidableEq, Repr

/-- Accesses of `ActiveTipChange`. -/
def ActiveTipChangeEvents (is_ibd : Bool) (w : PokerWorker) : List Event :=
  if is_ibd then []
  else if !w.m_running then []
  else if !w.m_node.wallet_loader then []
  else
    [.lock, .write .currentBlockHash, .write .round, .write .playerHand, .write .satoshisHand,
      .write .deck, .read .deck, .write .deck, .unlock]

/-- Accesses of one pass of the loop of `DealCards`. -/
def dealOneEvents : List Event :=
  [.read .deck, .write .playerHand, .write .deck, .read .deck, .write .satoshisHand, .write .deck]

/-- Accesses of `DealCards`: the size of the deck is read before `LOCK`. -/
def DealCardsEvents (w : PokerWorker) : List Event :=
  if w.deck.length < 6 then [.read .deck]
  else
    [.read .deck, .lock, .write .playerHand, .write .satoshisHand] ++ dealOneEvents ++
      dealOneEvents ++ dealOneEvents ++ [.unlock]

/-- Accesses of `handleDeal`. -/
def handleDealEvents (w : PokerWorker) : List Event :=
  if w.deck.length < 3 then [.read .deck]
  else if !w.playerHand.isEmpty then [.read .deck, .read .playerHand]
  else
    [.read .deck, .read .playerHand] ++ DealCardsEvents w ++
      (if w.deck.length < 6 then []
       else [.read .currentBlockHash, .read .round, .read .playerHand])

/-- Accesses of `handlePlay`. -/
def handlePlayEvents (w : PokerWorker) : List Event :=
  if w.playerHand.isEmpty then [.read .playerHand]
  else
    [.read .playerHand, .read .currentBlockHash, .read .playerHand, .read .satoshisHand,
      .read .round, .read .playerHand, .read .satoshisHand, .read .round, .write .round,
      .write .playerHand, .write .satoshisHand]

/-- Accesses of `handleFold`. -/
def handleFoldEvents (w : PokerWorker) : List Event :=
  if w.playerHand.isEmpty then [.read .playerHand]
  else [.read .playerHand, .read .round, .write .round, .write .playerHand, .write .satoshisHand]

/-- Whether every read and write of a sequence of accesses happens while the mutex is held,
starting from the given state of the mutex, and the mutex is free at the end. -/
def lockHeldThroughout : Bool → List Event → Bool
  | held, [] => !held
  | held, .lock :: rest => !held && lockHeldThroughout true rest
  | held, .unlock :: rest => held && lockHeldThroughout false rest
  | held, .read _ :: rest => held && lockHeldThroughout held rest
  | held, .write _ :: rest => held && lockHeldThroughout held rest

/-! ## Sequences of transitions -/

/-- The four transitions of the session. -/
inductive Action where
  | reseed (new_tip : CBlockIndex) (is_ibd : Bool)
  | deal
  | showdown
  | fold
deriving DecidableEq

/-- The worker after one transition, whether the transition succeeds or fails. -/
def step (lib : Library) (w : PokerWorker) : Action → PokerWorker
  | .reseed new_tip is_ibd => ActiveTipChange lib new_tip is_ibd w
  | .deal => (handleDeal w).worker
  | .showdown => (handlePlay w).worker
  | .fold => (handleFold w).worker

/-- The worker after a sequence of transitions. -/
def run (lib : Library) (actions : List Action) (w : PokerWorker) : PokerWorker :=
  actions.foldl (step lib) w

/-- Whether a transition is a tip change. -/
def Action.isReseed : Action → Bool
  | .reseed _ _ => true
  | _ => false

/-- One cycle: a Deal followed by a Showdown (`true`) or a Fold (`false`). -/
def playCycle (w : PokerWorker) (showdown : Bool) : PokerWorker :=
  let w := (handleDeal w).worker
  if showdown then (handlePlay w).worker else (handleFold w).worker

/-- Whether both calls of a cycle return without throwing. -/
def playCycleSucceeds (w : PokerWorker) (showdown : Bool) : Bool :=
  (handleDeal w).thrown.isNone &&
    (if showdown then (handlePlay (handleDeal w).worker).thrown.isNone
     else (handleFold (handleDeal w).worker).thrown.isNone)

/-- The worker after a sequence of cycles. -/
def playCycles (cycles : List Bool) (w : PokerWorker) : PokerWorker :=
  cycles.foldl playCycle w

/-! ## The session in the words of the specification -/

/-- The session: deck, both hands, round and bound block id. -/
structure Session where
  deck : List Card
  playerHand : List Card
  opponentHand : List Card
  round : Int
  boundBlockId : String
deriving DecidableEq

/-- The session held by a worker. -/
def PokerWorker.session (w : PokerWorker) : Session :=
  { deck := w.deck, playerHand := w.playerHand, opponentHand := w.satoshisHand,
    round := w.round, boundBlockId := w.currentBlockHash }

/-- The canonical ordered deck: suit-major, ranks ascending from 2 to 14. -/
def canonicalDeck : List Card :=
  [0, 1, 2, 3].flatMap (fun s => [2, 3, 4, 5, 6, 7, 8, 9, 10, 11, 12, 13, 14].map (fun r => ⟨r, s⟩))

/-- The insufficient-cards error, as raised by `handleDeal` or by `DealCards`. -/
def isInsufficientCards (e : Exn) : Prop :=
  e = .JSONRPCError .RPC_MISC_ERROR "Not enough cards to deal. Wait for the next block!" ∨
  e = .runtime_error "Not enough cards to deal. Game over! Wait for the next block!"

instance (e : Exn) : Decidable (isInsufficientCards e) :=
  inferInstanceAs (Decidable (_ ∨ _))

/-- The shuffle of a deck with the bytes of a seed string. -/
def specShuffle (lib : Library) (deck : List Card) (seed : String) : List Card :=
  applySwaps (lib.shuffleSwaps seed deck.length) deck

/-- The session that a reseed with a block id leaves: a fresh ordered deck shuffled with the
block id, the block id bound, round 1, both hands empty. -/
def specReseed (lib : Library) (blockId : uint256) : Session :=
  { deck := specShuffle lib canonicalDeck (lib.GetHex blockId),
    playerHand := [], opponentHand := [], round := 1, boundBlockId := lib.GetHex blockId }

/-- The already-dealt error of `handleDeal`. -/
def alreadyDealt : Exn :=
  .JSONRPCError .RPC_MISC_ERROR "Player cards are already dealt"

/-- The no-active-hand error, as raised by `handlePlay` or by `handleFold`. -/
def isNoActiveHand (e : Exn) : Prop :=
  e = .JSONRPCError .RPC_MISC_ERROR "Player cards are not dealt! (Or a new block has been mined)" ∨
  e = .JSONRPCError .RPC_MISC_ERROR "Already folded, or cards not dealt"

instance (e : Exn) : Decidable (isNoActiveHand e) :=
  inferInstanceAs (Decidable (_ ∨ _))

/-- The cards of the session taken together: deck, player hand, opponent hand. -/
def PokerWorker.allCards (w : PokerWorker) : List Card :=
  w.deck ++ w.playerHand ++ w.satoshisHand

/-- The state before the first tip change: empty deck, no hands; the other members are
arbitrary (`round` is not initialised by the constructor). -/
def PokerWorker.isInitial (w : PokerWorker) : Prop :=
  w.deck = [] ∧ w.playerHand = [] ∧ w.satoshisHand = []

instance (w : PokerWorker) : Decidable w.isInitial :=
  inferInstanceAs (Decidable (_ ∧ _))

/-- The two hands are either both empty or both of exactly three cards. -/
def PokerWorker.handsShape (w : PokerWorker) : Prop :=
  (w.playerHand = [] ∧ w.satoshisHand = []) ∨
    (w.playerHand.length = 3 ∧ w.satoshisHand.length = 3)

/-- The invariant on the cards: no card twice among deck and hands, at most 52 cards, and the
shape of the hands. -/
def PokerWorker.cardsInvariant (w : PokerWorker) : Prop :=
  w.allCards.Nodup ∧ w.allCards.length ≤ 52 ∧ w.handsShape

/-- The invariant between two tip changes: the shape of the hands, the size of the deck as a
function of the round and of the hands, and the range of the round. -/
def PokerWorker.roundInvariant (w : PokerWorker) : Prop :=
  w.handsShape ∧
    (w.deck.length : Int) = 52 - 6 * (w.round - 1) - w.playerHand.length - w.satoshisHand.length ∧
    1 ≤ w.round ∧ w.round ≤ 9

/-- The state between two cycles, `k` cycles after a tip change: no hand dealt, `52 - 6 * k`
cards in the deck, round `1 + k`. -/
def PokerWorker.betweenCycles (w : PokerWorker) (k : Nat) : Prop :=
  w.playerHand = [] ∧ w.satoshisHand = [] ∧ w.deck.length + 6 * k = 52 ∧ w.round = 1 + (k : Int)

/-- The invariant on the size of the deck over all transitions: the shape of the hands, and
either nothing has been dealt from an empty deck, or the deck holds 4 cards more than a
multiple of 6 (52, 46, ..., 4). -/
def PokerWorker.deckSizeInvariant (w : PokerWorker) : Prop :=
  w.handsShape ∧ ((w.deck = [] ∧ w.playerHand = []) ∨ w.deck.length % 6 = 4)

/-! ## Example inputs -/

/-- An example library: hash digits in base 16 and a seed-dependent sequence of exchanges. It
stands in for the real generator when the model is evaluated on a concrete input. -/
def exampleLibrary : Library :=
  { GetHex := fun h => String.mk (Nat.toDigits 16 h),
    shuffleSwaps := fun seed n => (List.range n).map (fun i => (i, (seed.length + 7 * i) % (i + 1))) }

/-- An example block. -/
def exampleTip : CBlockIndex := { blockHash := 48879 }

/-- A running worker with a wallet loader, no hands dealt and seven cards left in the deck. -/
def exampleWorker : PokerWorker :=
  { playerHand := [], satoshisHand := [],
    deck := [⟨2, 0⟩, ⟨3, 1⟩, ⟨4, 2⟩, ⟨5, 3⟩, ⟨6, 0⟩, ⟨7, 1⟩, ⟨8, 2⟩],
    currentBlockHash := "00", round := 2, m_running := true, m_shutdown := true,
    m_node := { wallet_loader := true } }

/-- A running worker in a round, with both hands dealt. -/
def exampleWorkerInRound : PokerWorker :=
  { playerHand := [⟨8, 2⟩, ⟨6, 0⟩, ⟨4, 2⟩], satoshisHand := [⟨7, 1⟩, ⟨5, 3⟩, ⟨3, 1⟩],
    deck := [⟨2, 0⟩],
    currentBlockHash := "00", round := 5, m_running := true, m_shutdown := true,
    m_node := { wallet_loader := true } }

/-- A running worker on a node without wallet loader, its deck still empty. -/
def exampleWorkerNoWallet : PokerWorker :=
  { playerHand := [], satoshisHand := [], deck := [],
    currentBlockHash := "", round := 1, m_running := true, m_shutdown := true,
    m_node := { wallet_loader := false } }

/-- A worker with no hand dealt and four cards left in the deck. -/
def exampleWorkerFourCards : PokerWorker :=
  { playerHand := [], satoshisHand := [],
    deck := [⟨2, 0⟩, ⟨3, 1⟩, ⟨4, 2⟩, ⟨5, 3⟩],
    currentBlockHash := "00", round := 9, m_running := true, m_shutdown := true,
    m_node := { wallet_loader := true } }

/-- A running worker with a wallet loader before the first tip change. -/
def exampleWorkerInitial : PokerWorker :=
  { playerHand := [], satoshisHand := [], deck := [],
    currentBlockHash := "", round := 0, m_running := true, m_shutdown := true,
    m_node := { wallet_loader := true } }

/-! ## Arithmetic of the 32-bit operators -/

theorem wrap32_of_range (x : Int) (h1 : -2147483648 ≤ x) (h2 : x < 2147483648) : wrap32 x = x := by
  unfold wrap32
  norm_num
  omega

theorem shl32_natCast (n k : Nat) (h : n * 2 ^ k < 2147483648) :
    shl32 (n : Int) k = ((n * 2 ^ k : Nat) : Int) := by
  unfold shl32
  rw [wrap32_of_range]
  · push_cast; rfl
  · have : (0:Int) ≤ (n : Int) * 2 ^ k := by positivity
    omega
  · have : ((n * 2 ^ k : Nat) : Int) < 2147483648 := by exact_mod_cast h
    push_cast at this
    exact this

theorem or32_natCast (m n : Nat) : or32 (m : Int) (n : Int) = ((m ||| n : Nat) : Int) := rfl

theorem nat_or_eq_add (a b i : Nat) (h : b < 2 ^ i) : (a * 2 ^ i) ||| b = a * 2 ^ i + b := by
  rw [Nat.mul_comm a (2 ^ i)]
  exact (Nat.mul_add_lt_is_or h a).symm

theorem nat_or_fields (c f1 f2 f3 : Nat) (h1 : f1 < 16) (h2 : f2 < 16) (h3 : f3 < 16) :
    (c * 2 ^ 28) ||| (((f1 * 2 ^ 24) ||| (f2 * 2 ^ 20)) ||| (f3 * 2 ^ 16))
      = c * 2 ^ 28 + f1 * 2 ^ 24 + f2 * 2 ^ 20 + f3 * 2 ^ 16 := by
  have e1 : (f1 * 2 ^ 24) ||| (f2 * 2 ^ 20) = f1 * 2 ^ 24 + f2 * 2 ^ 20 :=
    nat_or_eq_add f1 (f2 * 2 ^ 20) 24 (by omega)
  have e2 : (f1 * 2 ^ 24 + f2 * 2 ^ 20) ||| (f3 * 2 ^ 16)
      = f1 * 2 ^ 24 + f2 * 2 ^ 20 + f3 * 2 ^ 16 := by
    have := nat_or_eq_add (f1 * 16 + f2) (f3 * 2 ^ 16) 20 (by omega)
    have e : (f1 * 16 + f2) * 2 ^ 20 = f1 * 2 ^ 24 + f2 * 2 ^ 20 := by ring
    rw [e] at this
    exact this
  have e3 := nat_or_eq_add c (f1 * 2 ^ 24 + f2 * 2 ^ 20 + f3 * 2 ^ 16) 28 (by omega)
  rw [e1, e2, e3]
  omega

/-- Packing of a category and three 4-bit fields with `<<` and `|` is their weighted sum. -/
theorem or32_shl32_fields (c f1 f2 f3 : Int) (hc0 : 0 ≤ c) (hc : c ≤ 7)
    (h10 : 0 ≤ f1) (h1 : f1 ≤ 15) (h20 : 0 ≤ f2) (h2 : f2 ≤ 15) (h30 : 0 ≤ f3) (h3 : f3 ≤ 15) :
    or32 (shl32 c 28) (or32 (or32 (shl32 f1 24) (shl32 f2 20)) (shl32 f3 16))
      = c * 2 ^ 28 + f1 * 2 ^ 24 + f2 * 2 ^ 20 + f3 * 2 ^ 16 := by
  lift c to Nat using hc0
  lift f1 to Nat using h10
  lift f2 to Nat using h20
  lift f3 to Nat using h30
  rw [shl32_natCast c 28 (by omega), shl32_natCast f1 24 (by omega),
    shl32_natCast f2 20 (by omega), shl32_natCast f3 16 (by omega)]
  rw [or32_natCast, or32_natCast, or32_natCast, nat_or_fields c f1 f2 f3 (by omega) (by omega) (by omega)]
  push_cast
  rfl

theorem shl32_zero (k : Nat) : shl32 0 k = 0 := by
  unfold shl32 wrap32; norm_num

theorem or32_zero (x : Int) (h : 0 ≤ x) : or32 x 0 = x := by
  lift x to Nat using h
  show or32 (x : Int) ((0 : Nat) : Int) = x
  rw [or32_natCast]; simp

theorem shr32_natCast (n k : Nat) : shr32 (n : Int) k = ((n >>> k : Nat) : Int) := rfl

theorem and32_natCast (m n : Nat) : and32 (m : Int) (n : Int) = ((m &&& n : Nat) : Int) := rfl

theorem nat_field (n k : Nat) : (n >>> k) &&& 15 = n / 2 ^ k % 16 := by
  rw [Nat.shiftRight_eq_div_pow]
  exact Nat.and_pow_two_sub_one_eq_mod _ 4

/-- Shifting and masking recovers the category and the three rank fields of a packed score. -/
theorem decode_fields (c f1 f2 f3 : Int) (hc : 0 ≤ c ∧ c ≤ 7)
    (h1 : 0 ≤ f1 ∧ f1 ≤ 15) (h2 : 0 ≤ f2 ∧ f2 ≤ 15) (h3 : 0 ≤ f3 ∧ f3 ≤ 15) :
    and32 (shr32 (c * 2 ^ 28 + f1 * 2 ^ 24 + f2 * 2 ^ 20 + f3 * 2 ^ 16) 28) 0xF = c ∧
    and32 (shr32 (c * 2 ^ 28 + f1 * 2 ^ 24 + f2 * 2 ^ 20 + f3 * 2 ^ 16) 24) 0xF = f1 ∧
    and32 (shr32 (c * 2 ^ 28 + f1 * 2 ^ 24 + f2 * 2 ^ 20 + f3 * 2 ^ 16) 20) 0xF = f2 ∧
    and32 (shr32 (c * 2 ^ 28 + f1 * 2 ^ 24 + f2 * 2 ^ 20 + f3 * 2 ^ 16) 16) 0xF = f3 := by
  obtain ⟨hc0, hc1⟩ := hc
  obtain ⟨h10, h11⟩ := h1
  obtain ⟨h20, h21⟩ := h2
  obtain ⟨h30, h31⟩ := h3
  lift c to Nat using hc0
  lift f1 to Nat using h10
  lift f2 to Nat using h20
  lift f3 to Nat using h30
  have e : ((c : Int) * 2 ^ 28 + f1 * 2 ^ 24 + f2 * 2 ^ 20 + f3 * 2 ^ 16)
      = ((c * 2 ^ 28 + f1 * 2 ^ 24 + f2 * 2 ^ 20 + f3 * 2 ^ 16 : Nat) : Int) := by
    push_cast; rfl
  have e15 : (0xF : Int) = ((15 : Nat) : Int) := rfl
  rw [e, e15]
  simp only [shr32_natCast, and32_natCast, nat_field, Nat.cast_inj]
  refine ⟨?_, ?_, ?_, ?_⟩ <;> omega

/-! ## The sort and the suit set on three cards -/

theorem sortDescending_three (x y z : Int) :
    sortDescending [x, y, z] =
      [max x (max y z), x + y + z - max x (max y z) - min x (min y z), min x (min y z)] := by
  by_cases h1 : z ≤ y <;> by_cases h2 : y ≤ x <;> by_cases h3 : z ≤ x <;>
    simp only [sortDescending, List.insertionSort, List.orderedInsert, h1, h2, h3, if_true, if_false,
      List.cons.injEq, and_true] <;> omega

theorem collectSuits_three (a b c : Card) :
    ((collectSuits [a, b, c]).length == 1) = decide (specFlush a b c) := by
  simp only [collectSuits, List.foldl, specFlush]
  by_cases h1 : a.suit = b.suit <;> by_cases h2 : b.suit = c.suit <;> by_cases h3 : a.suit = c.suit <;>
    simp [List.insert, h1, h2, h3, eq_comm]

theorem sortDescending_cards (a b c : Card) :
    sortDescending [a.rank, b.rank, c.rank] = [specHigh a b c, specMid a b c, specLow a b c] :=
  sortDescending_three a.rank b.rank c.rank

theorem spec_sorted_range (a b c : Card)
    (ha : a.rankInRange) (hb : b.rankInRange) (hc : c.rankInRange) :
    specMid a b c ≤ specHigh a b c ∧ specLow a b c ≤ specMid a b c ∧
      2 ≤ specLow a b c ∧ specHigh a b c ≤ 14 := by
  unfold Card.rankInRange at ha hb hc
  unfold specMid specHigh specLow
  omega

theorem specTrips_iff (a b c : Card) :
    specTrips a b c ↔ (specHigh a b c = specMid a b c ∧ specMid a b c = specLow a b c) := by
  unfold specTrips specMid specHigh specLow
  omega

theorem specPair_iff (a b c : Card) :
    specPair a b c ↔ ((specHigh a b c = specMid a b c ∨ specMid a b c = specLow a b c) ∧
      ¬ (specHigh a b c = specMid a b c ∧ specMid a b c = specLow a b c)) := by
  unfold specPair specTrips specMid specHigh specLow
  omega

theorem specPairedRank_eq (a b c : Card) (h : specPair a b c) :
    specPairedRank a b c = specMid a b c := by
  unfold specPair specTrips at h
  unfold specPairedRank specMid specHigh specLow
  split_ifs <;> omega

theorem specKicker_eq (a b c : Card) (h : specPair a b c) :
    specKicker a b c = specHigh a b c + specLow a b c - specMid a b c := by
  unfold specPair specTrips at h
  unfold specKicker specMid specHigh specLow
  split_ifs <;> omega

/-! ## The score of three cards in closed form -/

theorem handRank_range (s f : Bool) (r0 r1 r2 : Int) :
    1 ≤ handRank s f r0 r1 r2 ∧ handRank s f r0 r1 r2 ≤ 6 := by
  unfold handRank
  split_ifs <;> omega

/-- On a category in `0..7` and fields in `0..15` the packing never leaves the 32-bit range
and is the weighted sum of its fields. -/
theorem packScore_eq (hr r0 r1 r2 : Int) (hhr : 0 ≤ hr ∧ hr ≤ 7)
    (h0 : 0 ≤ r0 ∧ r0 ≤ 15) (h1 : 0 ≤ r1 ∧ r1 ≤ 15) (h2 : 0 ≤ r2 ∧ r2 ≤ 15) :
    packScore hr r0 r1 r2 =
      if hr = 2 then
        (if r0 = r1 then hr * 2 ^ 28 + r0 * 2 ^ 24 + r2 * 2 ^ 20
         else hr * 2 ^ 28 + r1 * 2 ^ 24 + r0 * 2 ^ 20)
      else hr * 2 ^ 28 + r0 * 2 ^ 24 + r1 * 2 ^ 20 + r2 * 2 ^ 16 := by
  have key : ∀ f1 f2 : Int, 0 ≤ f1 → f1 ≤ 15 → 0 ≤ f2 → f2 ≤ 15 →
      or32 (shl32 hr 28) (or32 (shl32 f1 24) (shl32 f2 20))
        = hr * 2 ^ 28 + f1 * 2 ^ 24 + f2 * 2 ^ 20 := by
    intro f1 f2 a1 a2 b1 b2
    have h := or32_shl32_fields hr f1 f2 0 hhr.1 hhr.2 a1 a2 b1 b2 (le_refl 0) (by norm_num)
    have hz : 0 ≤ or32 (shl32 f1 24) (shl32 f2 20) := by
      lift f1 to Nat using a1
      lift f2 to Nat using b1
      rw [shl32_natCast f1 24 (by omega), shl32_natCast f2 20 (by omega), or32_natCast]
      exact Int.natCast_nonneg _
    rw [shl32_zero, or32_zero _ hz] at h
    rw [h]; ring
  unfold packScore
  simp only
  split_ifs
  · exact key r0 r2 h0.1 h0.2 h2.1 h2.2
  · exact key r1 r0 h1.1 h1.2 h0.1 h0.2
  · exact or32_shl32_fields hr r0 r1 r2 hhr.1 hhr.2 h0.1 h0.2 h1.1 h1.2 h2.1 h2.2

theorem specCategory3_range (a b c : Card) :
    1 ≤ specCategory3 a b c ∧ specCategory3 a b c ≤ 6 := by
  unfold specCategory3
  split_ifs <;> omega

theorem specCategory3_eq_two (a b c : Card) (h : specCategory3 a b c = 2) :
    specPair a b c ∧ ¬ specStraight a b c := by
  unfold specCategory3 at h
  by_cases hs : specStraight a b c <;> by_cases hf : specFlush a b c <;>
    by_cases ht : specTrips a b c <;> by_cases hp : specPair a b c <;>
    simp [hs, hf, ht, hp] at h ⊢

/-- First branch of `EvaluateHand`: consecutive ranks. -/
theorem handRank_consecutive (a b c : Card)
    (h1 : specHigh a b c - 1 = specMid a b c ∧ specMid a b c - 1 = specLow a b c) :
    handRank true (decide (specFlush a b c)) (specHigh a b c) (specMid a b c) (specLow a b c)
      = specCategory3 a b c := by
  have hs : specStraight a b c := Or.inl ⟨by omega, by omega⟩
  have hne : ¬ (specHigh a b c = specMid a b c ∧ specMid a b c = specLow a b c) := by omega
  have ht : ¬ specTrips a b c := by rw [specTrips_iff]; exact hne
  by_cases hf : specFlush a b c <;> simp [handRank, specCategory3, hs, hne, ht, hf]

/-- Second branch of `EvaluateHand`: the wheel, remapped to 3, 2, 1. -/
theorem handRank_wheel (a b c : Card)
    (h2 : specHigh a b c = 14 ∧ specMid a b c = 3 ∧ specLow a b c = 2) :
    handRank true (decide (specFlush a b c)) 3 2 1 = specCategory3 a b c := by
  have hs : specStraight a b c := Or.inr h2
  have ht : ¬ specTrips a b c := by rw [specTrips_iff]; omega
  by_cases hf : specFlush a b c <;> simp [handRank, specCategory3, hs, ht, hf]

/-- Third branch of `EvaluateHand`: no straight. -/
theorem handRank_noStraight (a b c : Card)
    (h1 : ¬ (specHigh a b c - 1 = specMid a b c ∧ specMid a b c - 1 = specLow a b c))
    (h2 : ¬ (specHigh a b c = 14 ∧ specMid a b c = 3 ∧ specLow a b c = 2)) :
    handRank false (decide (specFlush a b c)) (specHigh a b c) (specMid a b c) (specLow a b c)
      = specCategory3 a b c := by
  have hs : ¬ specStraight a b c := by
    unfold specStraight specWheel
    omega
  by_cases hf : specFlush a b c <;>
    by_cases ht : specHigh a b c = specMid a b c <;>
    by_cases hp : specMid a b c = specLow a b c <;>
    simp only [handRank, specCategory3, hs, hf, specTrips_iff, specPair_iff, ht, hp, and_self,
      and_true, and_false, true_and, false_and, or_self, or_true, or_false, true_or, false_or,
      not_true_eq_false, not_false_eq_true, if_true, if_false, decide_True, decide_False,
      Bool.and_true, Bool.and_false, Bool.false_eq_true, Bool.and_self]
  all_goals (try split_ifs)
  all_goals (try rfl)

/-- The score of three cards with ranks in `2..14`: the category and rank fields of the
specification, packed into bits 28.., 24.., 20.. and 16... -/
theorem EvaluateHand_three (a b c : Card)
    (ha : a.rankInRange) (hb : b.rankInRange) (hc : c.rankInRange) :
    EvaluateHand [a, b, c] =
      some (specCategory3 a b c * 2 ^ 28 + (specFields3 a b c).1 * 2 ^ 24
        + (specFields3 a b c).2.1 * 2 ^ 20 + (specFields3 a b c).2.2 * 2 ^ 16) := by
  obtain ⟨r1, r2, r3, r4⟩ := spec_sorted_range a b c ha hb hc
  have hcr := specCategory3_range a b c
  have hcr2 : 0 ≤ specCategory3 a b c ∧ specCategory3 a b c ≤ 7 := by omega
  unfold EvaluateHand
  simp only [List.map, sortDescending_cards, collectSuits_three]
  split_ifs with h1 h2
  · rw [handRank_consecutive a b c h1,
      packScore_eq _ _ _ _ hcr2 (by omega) (by omega) (by omega)]
    have hw : ¬ specWheel a b c := by unfold specWheel; omega
    by_cases hc2 : specCategory3 a b c = 2
    · exact absurd (Or.inl ⟨by omega, by omega⟩) (specCategory3_eq_two a b c hc2).2
    · simp only [specFields3, hc2, hw, if_false]
  · rw [handRank_wheel a b c h2,
      packScore_eq _ _ _ _ hcr2 (by omega) (by omega) (by omega)]
    have hw : specWheel a b c := h2
    by_cases hc2 : specCategory3 a b c = 2
    · exact absurd (Or.inr h2) (specCategory3_eq_two a b c hc2).2
    · simp only [specFields3, hc2, hw, if_false, if_true]
  · rw [handRank_noStraight a b c h1 h2,
      packScore_eq _ _ _ _ hcr2 (by omega) (by omega) (by omega)]
    have hw : ¬ specWheel a b c := h2
    by_cases hc2 : specCategory3 a b c = 2
    · have hp := (specCategory3_eq_two a b c hc2).1
      have e1 := specPairedRank_eq a b c hp
      have e2 := specKicker_eq a b c hp
      rw [specPair_iff] at hp
      simp only [specFields3, hc2, if_true, e1, e2]
      split_ifs <;> simp only [Option.some.injEq] <;> omega
    · simp only [specFields3, hc2, hw, if_false]

theorem specFields3_range (a b c : Card)
    (ha : a.rankInRange) (hb : b.rankInRange) (hc : c.rankInRange) :
    (0 ≤ (specFields3 a b c).1 ∧ (specFields3 a b c).1 ≤ 15) ∧
    (0 ≤ (specFields3 a b c).2.1 ∧ (specFields3 a b c).2.1 ≤ 15) ∧
    (0 ≤ (specFields3 a b c).2.2 ∧ (specFields3 a b c).2.2 ≤ 15) := by
  obtain ⟨r1, r2, r3, r4⟩ := spec_sorted_range a b c ha hb hc
  unfold Card.rankInRange at ha hb hc
  unfold specFields3
  split_ifs
  · unfold specPairedRank specKicker
    dsimp only
    split_ifs <;> omega
  · dsimp only; omega
  · dsimp only; omega

theorem specTiebreak3_eq (a b c : Card) :
    specTiebreak3 a b c =
      if specCategory3 a b c = 2 then [(specFields3 a b c).1, (specFields3 a b c).2.1]
      else [(specFields3 a b c).1, (specFields3 a b c).2.1, (specFields3 a b c).2.2] := by
  unfold specTiebreak3 specFields3
  split_ifs <;> rfl

/-! ## Claims on the hand evaluator -/

/-- C1: for two three-card hands with ranks in 2..14, the first scores strictly higher than the
second exactly when its (category, tiebreak) is lexicographically greater; in particular a
straight flush outscores three of a kind and a pair outscores a high card. -/
theorem EvaluateHand_order_iff_lex (a1 a2 a3 b1 b2 b3 : Card)
    (ha1 : a1.rankInRange) (ha2 : a2.rankInRange) (ha3 : a3.rankInRange)
    (hb1 : b1.rankInRange) (hb2 : b2.rankInRange) (hb3 : b3.rankInRange) :
    ∃ sa sb : Int, EvaluateHand [a1, a2, a3] = some sa ∧ EvaluateHand [b1, b2, b3] = some sb ∧
      (sa > sb ↔
        (specCategory3 a1 a2 a3 > specCategory3 b1 b2 b3 ∨
          (specCategory3 a1 a2 a3 = specCategory3 b1 b2 b3 ∧
            lexGreater (specTiebreak3 a1 a2 a3) (specTiebreak3 b1 b2 b3)))) ∧
      (specCategory3 a1 a2 a3 = 6 → specCategory3 b1 b2 b3 = 5 → sa > sb) ∧
      (specCategory3 a1 a2 a3 = 2 → specCategory3 b1 b2 b3 = 1 → sa > sb) := by
  refine ⟨_, _, EvaluateHand_three a1 a2 a3 ha1 ha2 ha3, EvaluateHand_three b1 b2 b3 hb1 hb2 hb3, ?_⟩
  obtain ⟨⟨p1, p2⟩, ⟨p3, p4⟩, ⟨p5, p6⟩⟩ := specFields3_range a1 a2 a3 ha1 ha2 ha3
  obtain ⟨⟨q1, q2⟩, ⟨q3, q4⟩, ⟨q5, q6⟩⟩ := specFields3_range b1 b2 b3 hb1 hb2 hb3
  have ca := specCategory3_range a1 a2 a3
  have cb := specCategory3_range b1 b2 b3
  have fa : specCategory3 a1 a2 a3 = 2 → (specFields3 a1 a2 a3).2.2 = 0 := by
    intro h; simp [specFields3, h]
  have fb : specCategory3 b1 b2 b3 = 2 → (specFields3 b1 b2 b3).2.2 = 0 := by
    intro h; simp [specFields3, h]
  rw [specTiebreak3_eq, specTiebreak3_eq]
  generalize specCategory3 a1 a2 a3 = x at *
  generalize specCategory3 b1 b2 b3 = y at *
  generalize specFields3 a1 a2 a3 = fx at *
  generalize specFields3 b1 b2 b3 = fy at *
  obtain ⟨x1, x2, x3⟩ := fx
  obtain ⟨y1, y2, y3⟩ := fy
  dsimp only at *
  refine ⟨?_, ?_, ?_⟩
  · by_cases hx : x = 2 <;> by_cases hy : y = 2 <;>
      simp only [hx, hy, if_true, if_false, lexGreater, and_false, or_false, and_true, true_and,
        false_and] <;>
      omega
  · omega
  · omega

/-- C1 witness: the lexicographic criterion at a straight flush against three of a kind. -/
theorem EvaluateHand_order_iff_lex_witness :
    ∃ sa sb : Int, EvaluateHand [⟨14, 0⟩, ⟨13, 0⟩, ⟨12, 0⟩] = some sa ∧
      EvaluateHand [⟨9, 2⟩, ⟨9, 1⟩, ⟨9, 3⟩] = some sb ∧
      (sa > sb ↔
        (specCategory3 ⟨14, 0⟩ ⟨13, 0⟩ ⟨12, 0⟩ > specCategory3 ⟨9, 2⟩ ⟨9, 1⟩ ⟨9, 3⟩ ∨
          (specCategory3 ⟨14, 0⟩ ⟨13, 0⟩ ⟨12, 0⟩ = specCategory3 ⟨9, 2⟩ ⟨9, 1⟩ ⟨9, 3⟩ ∧
            lexGreater (specTiebreak3 ⟨14, 0⟩ ⟨13, 0⟩ ⟨12, 0⟩)
              (specTiebreak3 ⟨9, 2⟩ ⟨9, 1⟩ ⟨9, 3⟩)))) ∧
      (specCategory3 ⟨14, 0⟩ ⟨13, 0⟩ ⟨12, 0⟩ = 6 → specCategory3 ⟨9, 2⟩ ⟨9, 1⟩ ⟨9, 3⟩ = 5 → sa > sb) ∧
      (specCategory3 ⟨14, 0⟩ ⟨13, 0⟩ ⟨12, 0⟩ = 2 → specCategory3 ⟨9, 2⟩ ⟨9, 1⟩ ⟨9, 3⟩ = 1 → sa > sb) :=
  EvaluateHand_order_iff_lex ⟨14, 0⟩ ⟨13, 0⟩ ⟨12, 0⟩ ⟨9, 2⟩ ⟨9, 1⟩ ⟨9, 3⟩
    (by decide) (by decide) (by decide) (by decide) (by decide) (by decide)

/-- C2: for three cards with ranks in 2..14 the category field `(score >> 28) & 0xF` is 6 for a
straight that is a flush, otherwise 5 when all three ranks are equal, otherwise 4 for a
straight, otherwise 3 for a flush, otherwise 2 when exactly two ranks are equal, otherwise 1. -/
theorem EvaluateHand_category_field (a b c : Card)
    (ha : a.rankInRange) (hb : b.rankInRange) (hc : c.rankInRange) :
    ∃ score : Int, EvaluateHand [a, b, c] = some score ∧
      and32 (shr32 score 28) 0xF =
        (if specStraight a b c ∧ specFlush a b c then 6
         else if specTrips a b c then 5
         else if specStraight a b c then 4
         else if specFlush a b c then 3
         else if specPair a b c then 2
         else 1) := by
  refine ⟨_, EvaluateHand_three a b c ha hb hc, ?_⟩
  obtain ⟨f1, f2, f3⟩ := specFields3_range a b c ha hb hc
  have hcr := specCategory3_range a b c
  exact (decode_fields _ _ _ _ ⟨by omega, by omega⟩ f1 f2 f3).1

/-- C2 witness: the category field of the pair 5, 5, 2. -/
theorem EvaluateHand_category_field_witness :
    ∃ score : Int, EvaluateHand [⟨5, 2⟩, ⟨2, 3⟩, ⟨5, 1⟩] = some score ∧
      and32 (shr32 score 28) 0xF =
        (if specStraight ⟨5, 2⟩ ⟨2, 3⟩ ⟨5, 1⟩ ∧ specFlush ⟨5, 2⟩ ⟨2, 3⟩ ⟨5, 1⟩ then 6
         else if specTrips ⟨5, 2⟩ ⟨2, 3⟩ ⟨5, 1⟩ then 5
         else if specStraight ⟨5, 2⟩ ⟨2, 3⟩ ⟨5, 1⟩ then 4
         else if specFlush ⟨5, 2⟩ ⟨2, 3⟩ ⟨5, 1⟩ then 3
         else if specPair ⟨5, 2⟩ ⟨2, 3⟩ ⟨5, 1⟩ then 2
         else 1) :=
  EvaluateHand_category_field ⟨5, 2⟩ ⟨2, 3⟩ ⟨5, 1⟩ (by decide) (by decide) (by decide)

/-- C4: for three cards with ranks in 2..14 the score is exactly
`category * 2^28 + f1 * 2^24 + f2 * 2^20 + f3 * 2^16` with no 32-bit overflow: it lies in
`[2^28, 7 * 2^28)` and its low 16 bits are zero. For a pair `f1` is the paired rank, `f2` the
kicker and `f3 = 0`; otherwise `f1 ≥ f2 ≥ f3` are the ranks in descending order, 3, 2, 1 for
the wheel. -/
theorem EvaluateHand_encoding (a b c : Card)
    (ha : a.rankInRange) (hb : b.rankInRange) (hc : c.rankInRange) :
    ∃ score f1 f2 f3 : Int, EvaluateHand [a, b, c] = some score ∧
      score = specCategory3 a b c * 2 ^ 28 + f1 * 2 ^ 24 + f2 * 2 ^ 20 + f3 * 2 ^ 16 ∧
      2 ^ 28 ≤ score ∧ score < 7 * 2 ^ 28 ∧ score % 2 ^ 16 = 0 ∧
      (specCategory3 a b c = 2 →
        f1 = specPairedRank a b c ∧ f2 = specKicker a b c ∧ f3 = 0) ∧
      (specCategory3 a b c ≠ 2 →
        f1 ≥ f2 ∧ f2 ≥ f3 ∧
          (f1, f2, f3) = if specWheel a b c then (3, 2, 1)
            else (specHigh a b c, specMid a b c, specLow a b c)) := by
  refine ⟨_, (specFields3 a b c).1, (specFields3 a b c).2.1, (specFields3 a b c).2.2,
    EvaluateHand_three a b c ha hb hc, rfl, ?_⟩
  obtain ⟨⟨p1, p2⟩, ⟨p3, p4⟩, ⟨p5, p6⟩⟩ := specFields3_range a b c ha hb hc
  obtain ⟨r1, r2, r3, r4⟩ := spec_sorted_range a b c ha hb hc
  have hcr := specCategory3_range a b c
  refine ⟨by omega, by omega, by omega, ?_, ?_⟩
  · intro h2
    simp [specFields3, h2]
  · intro h2
    by_cases hw : specWheel a b c
    · simp [specFields3, h2, hw]
    · simp only [specFields3, h2, hw, if_false]
      exact ⟨r1, r2, trivial⟩

/-- C4 witness: the encoding of the pair 5, 5, 2. -/
theorem EvaluateHand_encoding_witness :
    ∃ score f1 f2 f3 : Int, EvaluateHand [⟨5, 2⟩, ⟨2, 3⟩, ⟨5, 1⟩] = some score ∧
      score = specCategory3 ⟨5, 2⟩ ⟨2, 3⟩ ⟨5, 1⟩ * 2 ^ 28 + f1 * 2 ^ 24 + f2 * 2 ^ 20
        + f3 * 2 ^ 16 ∧
      2 ^ 28 ≤ score ∧ score < 7 * 2 ^ 28 ∧ score % 2 ^ 16 = 0 ∧
      (specCategory3 ⟨5, 2⟩ ⟨2, 3⟩ ⟨5, 1⟩ = 2 →
        f1 = specPairedRank ⟨5, 2⟩ ⟨2, 3⟩ ⟨5, 1⟩ ∧ f2 = specKicker ⟨5, 2⟩ ⟨2, 3⟩ ⟨5, 1⟩ ∧ f3 = 0) ∧
      (specCategory3 ⟨5, 2⟩ ⟨2, 3⟩ ⟨5, 1⟩ ≠ 2 →
        f1 ≥ f2 ∧ f2 ≥ f3 ∧
          (f1, f2, f3) = if specWheel ⟨5, 2⟩ ⟨2, 3⟩ ⟨5, 1⟩ then (3, 2, 1)
            else (specHigh ⟨5, 2⟩ ⟨2, 3⟩ ⟨5, 1⟩, specMid ⟨5, 2⟩ ⟨2, 3⟩ ⟨5, 1⟩,
              specLow ⟨5, 2⟩ ⟨2, 3⟩ ⟨5, 1⟩)) :=
  EvaluateHand_encoding ⟨5, 2⟩ ⟨2, 3⟩ ⟨5, 1⟩ (by decide) (by decide) (by decide)

/-- The ranks of three cards are 14, 3, 2 in some order exactly when the hand is the wheel of
the specification. -/
theorem specWheel_iff_perm (a b c : Card) :
    specWheel a b c ↔ List.Perm [a.rank, b.rank, c.rank] [14, 3, 2] := by
  constructor
  · intro h
    unfold specWheel specMid specHigh specLow at h
    have ea : a.rank = 14 ∨ a.rank = 3 ∨ a.rank = 2 := by omega
    have eb : b.rank = 14 ∨ b.rank = 3 ∨ b.rank = 2 := by omega
    have ec : c.rank = 14 ∨ c.rank = 3 ∨ c.rank = 2 := by omega
    rcases ea with h1 | h1 | h1 <;> rcases eb with h2 | h2 | h2 <;>
      rcases ec with h3 | h3 | h3 <;> rw [h1, h2, h3] at h ⊢ <;> revert h <;> decide
  · intro h
    have m14 := (h.mem_iff (a := 14)).2 (by simp)
    have m3 := (h.mem_iff (a := 3)).2 (by simp)
    have m2 := (h.mem_iff (a := 2)).2 (by simp)
    have ma := (h.mem_iff (a := a.rank)).1 (by simp)
    have mb := (h.mem_iff (a := b.rank)).1 (by simp)
    have mc := (h.mem_iff (a := c.rank)).1 (by simp)
    simp only [List.mem_cons, List.mem_singleton, List.not_mem_nil, or_false] at m14 m3 m2 ma mb mc
    unfold specWheel specMid specHigh specLow
    omega

theorem specStraight_of_category (a b c : Card)
    (h : specCategory3 a b c = 4 ∨ specCategory3 a b c = 6) : specStraight a b c := by
  unfold specCategory3 at h
  by_cases hs : specStraight a b c
  · exact hs
  · simp only [hs, false_and, if_false] at h
    split_ifs at h <;> omega

theorem rankInRange_of_perm (a b c : Card) (r0 r1 r2 : Int)
    (h0 : 2 ≤ r0 ∧ r0 ≤ 14) (h1 : 2 ≤ r1 ∧ r1 ≤ 14) (h2 : 2 ≤ r2 ∧ r2 ≤ 14)
    (h : List.Perm [a.rank, b.rank, c.rank] [r0, r1, r2]) :
    a.rankInRange ∧ b.rankInRange ∧ c.rankInRange := by
  have ma := (h.mem_iff (a := a.rank)).1 (by simp)
  have mb := (h.mem_iff (a := b.rank)).1 (by simp)
  have mc := (h.mem_iff (a := c.rank)).1 (by simp)
  simp only [List.mem_cons, List.mem_singleton, List.not_mem_nil, or_false] at ma mb mc
  unfold Card.rankInRange
  omega

theorem specSorted_of_perm_432 (a b c : Card)
    (h : List.Perm [a.rank, b.rank, c.rank] [4, 3, 2]) :
    specHigh a b c = 4 ∧ specMid a b c = 3 ∧ specLow a b c = 2 := by
  have m4 := (h.mem_iff (a := 4)).2 (by simp)
  have m3 := (h.mem_iff (a := 3)).2 (by simp)
  have m2 := (h.mem_iff (a := 2)).2 (by simp)
  have ma := (h.mem_iff (a := a.rank)).1 (by simp)
  have mb := (h.mem_iff (a := b.rank)).1 (by simp)
  have mc := (h.mem_iff (a := c.rank)).1 (by simp)
  simp only [List.mem_cons, List.mem_singleton, List.not_mem_nil, or_false] at m4 m3 m2 ma mb mc
  unfold specMid specHigh specLow
  omega

/-- C3: a hand whose ranks are 14, 3, 2 in any order, of any suits, is classified as a straight
(category 4, or 6 when all suits are equal) with rank fields 3, 2, 1. Its score is strictly
below that of every non-wheel straight of the same category, 4-3-2 included, and, when its
category is 4, strictly above every hand whose category is flush, pair or high card. -/
theorem wheel_scoring (a b c : Card) (hw : List.Perm [a.rank, b.rank, c.rank] [14, 3, 2]) :
    ∃ sw : Int, EvaluateHand [a, b, c] = some sw ∧
      specCategory3 a b c = (if specFlush a b c then 6 else 4) ∧
      and32 (shr32 sw 28) 0xF = (if specFlush a b c then 6 else 4) ∧
      and32 (shr32 sw 24) 0xF = 3 ∧ and32 (shr32 sw 20) 0xF = 2 ∧ and32 (shr32 sw 16) 0xF = 1 ∧
      (∀ x y z : Card, x.rankInRange → y.rankInRange → z.rankInRange →
        specStraight x y z → ¬ List.Perm [x.rank, y.rank, z.rank] [14, 3, 2] →
        specCategory3 x y z = specCategory3 a b c →
        ∃ s : Int, EvaluateHand [x, y, z] = some s ∧ sw < s) ∧
      (∀ x y z : Card, List.Perm [x.rank, y.rank, z.rank] [4, 3, 2] →
        specCategory3 x y z = specCategory3 a b c →
        ∃ s : Int, EvaluateHand [x, y, z] = some s ∧ sw < s) ∧
      (specCategory3 a b c = 4 →
        ∀ x y z : Card, x.rankInRange → y.rankInRange → z.rankInRange →
          (specCategory3 x y z = 3 ∨ specCategory3 x y z = 2 ∨ specCategory3 x y z = 1) →
          ∃ s : Int, EvaluateHand [x, y, z] = some s ∧ s < sw) := by
  obtain ⟨ha, hb, hc⟩ := rankInRange_of_perm a b c 14 3 2 (by omega) (by omega) (by omega) hw
  have hwheel : specWheel a b c := (specWheel_iff_perm a b c).2 hw
  have hs : specStraight a b c := Or.inr hwheel
  have ht : ¬ specTrips a b c := by
    rw [specTrips_iff]
    unfold specWheel at hwheel
    omega
  have hcat : specCategory3 a b c = (if specFlush a b c then 6 else 4) := by
    by_cases hf : specFlush a b c <;> simp [specCategory3, hs, ht, hf]
  have hcr : specCategory3 a b c = 6 ∨ specCategory3 a b c = 4 := by
    rw [hcat]; split_ifs <;> simp
  have hfields : specFields3 a b c = (3, 2, 1) := by
    have h2 : specCategory3 a b c ≠ 2 := by omega
    simp [specFields3, h2, hwheel]
  have hsw := EvaluateHand_three a b c ha hb hc
  rw [hfields] at hsw
  dsimp only at hsw
  have hdec := decode_fields (specCategory3 a b c) 3 2 1 ⟨by omega, by omega⟩
    (by omega) (by omega) (by omega)
  have key : ∀ x y z : Card, x.rankInRange → y.rankInRange → z.rankInRange →
      specStraight x y z → ¬ specWheel x y z → specCategory3 x y z = specCategory3 a b c →
      ∃ s : Int, EvaluateHand [x, y, z] = some s ∧
        specCategory3 a b c * 2 ^ 28 + 3 * 2 ^ 24 + 2 * 2 ^ 20 + 1 * 2 ^ 16 < s := by
    intro x y z hx hy hz hst hnw hceq
    refine ⟨_, EvaluateHand_three x y z hx hy hz, ?_⟩
    obtain ⟨r1, r2, r3, r4⟩ := spec_sorted_range x y z hx hy hz
    have h2 : specCategory3 x y z ≠ 2 := by omega
    have hcons : specHigh x y z = specMid x y z + 1 ∧ specMid x y z + 1 = specLow x y z + 2 := by
      rcases hst with h | h
      · exact h
      · exact absurd h hnw
    have hf : specFields3 x y z = (specHigh x y z, specMid x y z, specLow x y z) := by
      simp only [specFields3, h2, hnw, if_false]
    rw [hf, hceq]
    dsimp only
    omega
  refine ⟨_, hsw, hcat, ?_, hdec.2.1, hdec.2.2.1, hdec.2.2.2, ?_, ?_, ?_⟩
  · rw [hdec.1, hcat]
  · intro x y z hx hy hz hst hnp hceq
    exact key x y z hx hy hz hst (fun h => hnp ((specWheel_iff_perm x y z).1 h)) hceq
  · intro x y z hp hceq
    obtain ⟨hx, hy, hz⟩ := rankInRange_of_perm x y z 4 3 2 (by omega) (by omega) (by omega) hp
    obtain ⟨e1, e2, e3⟩ := specSorted_of_perm_432 x y z hp
    refine key x y z hx hy hz (Or.inl ⟨by omega, by omega⟩) ?_ hceq
    unfold specWheel
    omega
  · intro h4 x y z hx hy hz hlow
    refine ⟨_, EvaluateHand_three x y z hx hy hz, ?_⟩
    obtain ⟨⟨p1, p2⟩, ⟨p3, p4⟩, ⟨p5, p6⟩⟩ := specFields3_range x y z hx hy hz
    omega

/-- C3 witness: the wheel Ace of spades, 3 of diamonds, 2 of clubs. -/
theorem wheel_scoring_witness :
    List.Perm [(14 : Int), 3, 2] [14, 3, 2] ∧
    ∃ sw : Int, EvaluateHand [⟨14, 2⟩, ⟨3, 1⟩, ⟨2, 3⟩] = some sw ∧
      and32 (shr32 sw 28) 0xF = 4 ∧
      (∀ x y z : Card, List.Perm [x.rank, y.rank, z.rank] [4, 3, 2] →
        specCategory3 x y z = specCategory3 ⟨14, 2⟩ ⟨3, 1⟩ ⟨2, 3⟩ →
        ∃ s : Int, EvaluateHand [x, y, z] = some s ∧ sw < s) :=
  ⟨by decide,
    (wheel_scoring ⟨14, 2⟩ ⟨3, 1⟩ ⟨2, 3⟩ (by decide)).imp
      (fun _ h => ⟨h.1, h.2.2.1, h.2.2.2.2.2.2.2.1⟩)⟩

theorem rankToString_eq (r : Int) : rankToString r = specRankName r := by
  unfold rankToString specRankName
  split_ifs with h1 h2 h3 h4 h5
  · rfl
  · rfl
  · rfl
  · rfl
  · subst h5; decide
  · rfl

theorem append_ne_of_head (x : Char) (s t u : String) (h : s.data.head? = some x)
    (hu : u.data.head? ≠ some x) : s ++ t ≠ u := by
  intro he
  apply hu
  rw [← he, String.data_append]
  cases hs : s.data with
  | nil => rw [hs] at h; simp at h
  | cons y ys => rw [hs] at h; simpa using h

theorem specDescription_ne_unknown (a b c : Card) : specDescription a b c ≠ "Unknown hand" := by
  unfold specDescription specCategoryName
  rw [String.append_assoc, String.append_assoc]
  split_ifs
  · exact append_ne_of_head 'S' _ _ _ (by decide) (by decide)
  · exact append_ne_of_head 'T' _ _ _ (by decide) (by decide)
  · exact append_ne_of_head 'S' _ _ _ (by decide) (by decide)
  · exact append_ne_of_head 'F' _ _ _ (by decide) (by decide)
  · exact append_ne_of_head 'P' _ _ _ (by decide) (by decide)
  · exact append_ne_of_head 'H' _ _ _ (by decide) (by decide)

/-- C5: decoding undoes encoding. For three cards with ranks in 2..14 the description of the
score is never "Unknown hand"; it is the name of the category followed by the tiebreak in
parentheses, with ranks 14, 13, 12, 11 rendered as A, K, Q, J and the others as numerals. -/
theorem GetHandDescription_of_EvaluateHand (a b c : Card)
    (ha : a.rankInRange) (hb : b.rankInRange) (hc : c.rankInRange) :
    ∃ score : Int, EvaluateHand [a, b, c] = some score ∧
      GetHandDescription score ≠ "Unknown hand" ∧
      GetHandDescription score = specDescription a b c := by
  refine ⟨_, EvaluateHand_three a b c ha hb hc, ?_⟩
  obtain ⟨f1, f2, f3⟩ := specFields3_range a b c ha hb hc
  have hcr := specCategory3_range a b c
  obtain ⟨d0, d1, d2, d3⟩ := decode_fields (specCategory3 a b c) (specFields3 a b c).1
    (specFields3 a b c).2.1 (specFields3 a b c).2.2 ⟨by omega, by omega⟩ f1 f2 f3
  have hdesc : GetHandDescription (specCategory3 a b c * 2 ^ 28 + (specFields3 a b c).1 * 2 ^ 24
      + (specFields3 a b c).2.1 * 2 ^ 20 + (specFields3 a b c).2.2 * 2 ^ 16)
        = specDescription a b c := by
    unfold GetHandDescription
    simp only [d0, d1, d2, d3, rankToString_eq]
    have h6 : specCategory3 a b c = 1 ∨ specCategory3 a b c = 2 ∨ specCategory3 a b c = 3 ∨
        specCategory3 a b c = 4 ∨ specCategory3 a b c = 5 ∨ specCategory3 a b c = 6 := by omega
    rcases h6 with h | h | h | h | h | h <;>
      simp [h, specDescription, specCategoryName, specTiebreakText]
  exact ⟨by rw [hdesc]; exact specDescription_ne_unknown a b c, hdesc⟩

/-- C5 witness: the description of the pair 5, 5, 2. -/
theorem GetHandDescription_of_EvaluateHand_witness :
    ∃ score : Int, EvaluateHand [⟨5, 2⟩, ⟨2, 3⟩, ⟨5, 1⟩] = some score ∧
      GetHandDescription score ≠ "Unknown hand" ∧
      GetHandDescription score = specDescription ⟨5, 2⟩ ⟨2, 3⟩ ⟨5, 1⟩ :=
  GetHandDescription_of_EvaluateHand ⟨5, 2⟩ ⟨2, 3⟩ ⟨5, 1⟩ (by decide) (by decide) (by decide)

/-! ## The deck and its shuffle -/

theorem swapAt_perm {α : Type} [DecidableEq α] (l : List α) (i j : Nat) :
    List.Perm (swapAt l i j) l := by
  unfold swapAt
  cases hi : l[i]? with
  | none => exact List.Perm.refl l
  | some x =>
    cases hj : l[j]? with
    | none => exact List.Perm.refl l
    | some y =>
      obtain ⟨hil, hix⟩ := List.getElem?_eq_some.1 hi
      obtain ⟨hjl, hjy⟩ := List.getElem?_eq_some.1 hj
      have hjl2 : j < (l.set i y).length := by rw [List.length_set]; exact hjl
      have hget : (l.set i y)[j] = y := by
        rw [List.getElem_set]
        split_ifs
        · rfl
        · exact hjy
      rw [List.perm_iff_count]
      intro a
      rw [List.count_set _ _ _ _ hjl2, List.count_set _ _ _ _ hil, hget, hix]
      have hx : (if (x == a) = true then 1 else 0) ≤ List.count a l := by
        split_ifs with h
        · have hxa : x = a := by simpa using h
          have hmem : a ∈ l := by rw [← hxa, ← hix]; exact List.getElem_mem _
          exact List.count_pos_iff.2 hmem
        · exact Nat.zero_le _
      split_ifs at hx ⊢ <;> omega

theorem applySwaps_perm {α : Type} [DecidableEq α] (swaps : List (Nat × Nat)) (l : List α) :
    List.Perm (applySwaps swaps l) l := by
  unfold applySwaps
  induction swaps generalizing l with
  | nil => exact List.Perm.refl l
  | cons p ps ih => exact (ih (swapAt l p.1 p.2)).trans (swapAt_perm l p.1 p.2)

theorem GenerateDeck_deck (w : PokerWorker) : (GenerateDeck w).deck = canonicalDeck := by
  rfl

theorem canonicalDeck_length : canonicalDeck.length = 52 := by rfl

theorem canonicalDeck_nodup : canonicalDeck.Nodup := by decide


/-! ## Dealing -/

theorem exists_top_six (l : List Card) (h : 6 ≤ l.length) :
    ∃ (rest : List Card) (c6 c5 c4 c3 c2 c1 : Card), l = rest ++ [c6, c5, c4, c3, c2, c1] := by
  have hd : (l.drop (l.length - 6)).length = 6 := by
    rw [List.length_drop]; omega
  match hl : l.drop (l.length - 6), hd with
  | [c6, c5, c4, c3, c2, c1], _ =>
    exact ⟨l.take (l.length - 6), c6, c5, c4, c3, c2, c1, by rw [← hl, List.take_append_drop]⟩

theorem dealOne_top_two (rest ph sh : List Card) (b a : Card)
    (cbh : String) (round : Int) (run shut : Bool) (node : NodeContext) :
    dealOne ⟨ph, sh, rest ++ [b, a], cbh, round, run, shut, node⟩
      = ⟨none, ⟨ph ++ [a], sh ++ [b], rest, cbh, round, run, shut, node⟩⟩ := by
  have e1 : rest ++ [b, a] = (rest ++ [b]) ++ [a] := by simp
  simp only [dealOne]
  rw [e1]
  simp only [List.getLast?_concat, List.dropLast_concat]

theorem dealLoop_top_six (rest ph sh : List Card) (c6 c5 c4 c3 c2 c1 : Card)
    (cbh : String) (round : Int) (run shut : Bool) (node : NodeContext) :
    dealLoop 3 ⟨ph, sh, rest ++ [c6, c5, c4, c3, c2, c1], cbh, round, run, shut, node⟩
      = ⟨none, ⟨ph ++ [c1, c3, c5], sh ++ [c2, c4, c6], rest, cbh, round, run, shut, node⟩⟩ := by
  have e : rest ++ [c6, c5, c4, c3, c2, c1] = ((rest ++ [c6, c5]) ++ [c4, c3]) ++ [c2, c1] := by
    simp
  rw [e]
  simp only [dealLoop, dealOne_top_two]
  simp only [List.append_assoc, List.cons_append, List.nil_append]

/-- With no player hand and at least 6 cards, `handleDeal` succeeds and hands out the six top
cards. -/
theorem handleDeal_of_six (w : PokerWorker) (hp : w.playerHand = []) (hn : 6 ≤ w.deck.length) :
    ∃ (rest : List Card) (c6 c5 c4 c3 c2 c1 : Card),
      w.deck = rest ++ [c6, c5, c4, c3, c2, c1] ∧
      handleDeal w = ⟨none, ⟨[c1, c3, c5], [c2, c4, c6], rest, w.currentBlockHash, w.round,
        w.m_running, w.m_shutdown, w.m_node⟩⟩ := by
  obtain ⟨ph, sh, deck, cbh, round, run, shut, node⟩ := w
  dsimp only at hp hn
  subst hp
  obtain ⟨rest, c6, c5, c4, c3, c2, c1, rfl⟩ := exists_top_six deck hn
  have h3 : ¬ (rest ++ [c6, c5, c4, c3, c2, c1]).length < 3 := by omega
  have h6 : ¬ (rest ++ [c6, c5, c4, c3, c2, c1]).length < 6 := by omega
  refine ⟨rest, c6, c5, c4, c3, c2, c1, rfl, ?_⟩
  simp only [handleDeal, DealCards, h3, h6, if_false, List.isEmpty_nil, Bool.not_true,
    Bool.false_eq_true, dealLoop_top_six, List.nil_append]

/-! ## Claims on the session state machine -/

/-- C6: for every seed, `GenerateDeck` followed by `ShuffleDeck` yields 52 pairwise distinct
cards, a permutation of the canonical ordered deck. -/
theorem shuffled_deck_is_permutation (lib : Library) (seed : uint256) (w : PokerWorker) :
    (ShuffleDeck lib seed (GenerateDeck w)).deck.length = 52 ∧
    (ShuffleDeck lib seed (GenerateDeck w)).deck.Nodup ∧
    List.Perm (ShuffleDeck lib seed (GenerateDeck w)).deck canonicalDeck := by
  have hperm : List.Perm (ShuffleDeck lib seed (GenerateDeck w)).deck canonicalDeck := by
    unfold ShuffleDeck
    dsimp only
    rw [GenerateDeck_deck]
    exact applySwaps_perm _ _
  exact ⟨by rw [hperm.length_eq, canonicalDeck_length],
    hperm.nodup_iff.2 canonicalDeck_nodup, hperm⟩

/-- C7: a tip change that is not skipped leaves a session that is a function of the block id
alone: the canonical deck shuffled with the block id (52 cards), both hands empty, round 1 and
the hex string of the block id bound. Two workers reseeded with the same block id end with the
same session, whatever they held before. -/
theorem ActiveTipChange_reseeds (lib : Library) (new_tip : CBlockIndex) (is_ibd : Bool)
    (w1 w2 : PokerWorker) (hibd : is_ibd = false)
    (hr1 : w1.m_running = true) (hl1 : w1.m_node.wallet_loader = true)
    (hr2 : w2.m_running = true) (hl2 : w2.m_node.wallet_loader = true) :
    (ActiveTipChange lib new_tip is_ibd w1).session = specReseed lib new_tip.GetBlockHash ∧
    (ActiveTipChange lib new_tip is_ibd w1).deck =
      specShuffle lib canonicalDeck (lib.GetHex new_tip.GetBlockHash) ∧
    (ActiveTipChange lib new_tip is_ibd w1).deck.length = 52 ∧
    (ActiveTipChange lib new_tip is_ibd w1).playerHand = [] ∧
    (ActiveTipChange lib new_tip is_ibd w1).satoshisHand = [] ∧
    (ActiveTipChange lib new_tip is_ibd w1).round = 1 ∧
    (ActiveTipChange lib new_tip is_ibd w1).currentBlockHash = lib.GetHex new_tip.GetBlockHash ∧
    (ActiveTipChange lib new_tip is_ibd w1).session =
      (ActiveTipChange lib new_tip is_ibd w2).session := by
  have key : ∀ w : PokerWorker, w.m_running = true → w.m_node.wallet_loader = true →
      (ActiveTipChange lib new_tip is_ibd w).session = specReseed lib new_tip.GetBlockHash := by
    intro w hr hl
    simp only [ActiveTipChange, hibd, hr, hl, Bool.not_true, Bool.false_eq_true, if_false]
    rfl
  have h1 := key w1 hr1 hl1
  have h2 := key w2 hr2 hl2
  have hd : (ActiveTipChange lib new_tip is_ibd w1).deck =
      specShuffle lib canonicalDeck (lib.GetHex new_tip.GetBlockHash) :=
    congrArg Session.deck h1
  refine ⟨h1, hd, ?_, congrArg Session.playerHand h1, congrArg Session.opponentHand h1,
    congrArg Session.round h1, congrArg Session.boundBlockId h1, h1.trans h2.symm⟩
  rw [hd]
  unfold specShuffle
  rw [(applySwaps_perm _ _).length_eq, canonicalDeck_length]

/-- C7 witness: two different example workers reseeded with the example block. -/
theorem ActiveTipChange_reseeds_witness :
    exampleWorker.m_running = true ∧ exampleWorkerInRound.m_running = true ∧
    exampleWorker.session ≠ exampleWorkerInRound.session ∧
    (ActiveTipChange exampleLibrary exampleTip false exampleWorker).deck.length = 52 ∧
    (ActiveTipChange exampleLibrary exampleTip false exampleWorker).round = 1 ∧
    (ActiveTipChange exampleLibrary exampleTip false exampleWorker).session =
      (ActiveTipChange exampleLibrary exampleTip false exampleWorkerInRound).session :=
  have h := ActiveTipChange_reseeds exampleLibrary exampleTip false exampleWorker
    exampleWorkerInRound rfl rfl rfl rfl rfl
  ⟨rfl, rfl, by decide, h.2.2.1, h.2.2.2.2.2.1, h.2.2.2.2.2.2.2⟩

theorem specReseed_deck_length (lib : Library) (blockId : uint256) :
    (specReseed lib blockId).deck.length = 52 := by
  unfold specReseed specShuffle
  dsimp only
  rw [(applySwaps_perm _ _).length_eq, canonicalDeck_length]

/-- C8, as amended: a tip change leaves the worker completely unchanged when `is_ibd` is true,
or the engine is not running, or the node has no wallet loader; in every other case it
performs the reseed with the new tip. -/
theorem ActiveTipChange_skip_or_reseed (lib : Library) (new_tip : CBlockIndex) (is_ibd : Bool)
    (w : PokerWorker) :
    ((is_ibd = true ∨ w.m_running = false ∨ w.m_node.wallet_loader = false) →
      ActiveTipChange lib new_tip is_ibd w = w) ∧
    (¬ (is_ibd = true ∨ w.m_running = false ∨ w.m_node.wallet_loader = false) →
      (ActiveTipChange lib new_tip is_ibd w).session = specReseed lib new_tip.GetBlockHash) := by
  constructor
  · intro h
    unfold ActiveTipChange
    rcases h with h | h | h
    · simp [h]
    · simp [h]
    · simp [h]
  · intro h
    simp only [not_or, Bool.not_eq_true, Bool.not_eq_false] at h
    obtain ⟨h1, h2, h3⟩ := h
    simp only [ActiveTipChange, h1, h2, h3, Bool.not_true, Bool.false_eq_true, if_false]
    rfl

/-- C8 witness: the example worker without wallet loader is left unchanged, the example
worker with one is reseeded. -/
theorem ActiveTipChange_skip_or_reseed_witness :
    ActiveTipChange exampleLibrary exampleTip false exampleWorkerNoWallet
      = exampleWorkerNoWallet ∧
    (ActiveTipChange exampleLibrary exampleTip false exampleWorker).session
      = specReseed exampleLibrary exampleTip.GetBlockHash :=
  ⟨(ActiveTipChange_skip_or_reseed exampleLibrary exampleTip false exampleWorkerNoWallet).1
      (Or.inr (Or.inr rfl)),
    (ActiveTipChange_skip_or_reseed exampleLibrary exampleTip false exampleWorker).2
      (by decide)⟩

/-- C8 counterexample: the tip change is not a bulk replay and the engine is running, yet no
reseed is performed, because the node has no wallet loader. -/
theorem ActiveTipChange_reseed_counterexample :
    ¬ (((false = true ∨ exampleWorkerNoWallet.m_running = false) →
          (ActiveTipChange exampleLibrary exampleTip false exampleWorkerNoWallet).session
            = exampleWorkerNoWallet.session) ∧
       (¬ (false = true ∨ exampleWorkerNoWallet.m_running = false) →
          (ActiveTipChange exampleLibrary exampleTip false exampleWorkerNoWallet).session
            = specReseed exampleLibrary exampleTip.GetBlockHash)) := by
  intro h
  have h2 := h.2 (by decide)
  have h3 := congrArg (fun s => s.deck.length) h2
  dsimp only at h3
  rw [specReseed_deck_length] at h3
  revert h3
  decide
/-- C9: with both hands empty and a deck of at least 6 cards, Deal succeeds and moves exactly
the 6 top (last) cards, alternating player then opponent; the rest of the deck keeps its
order, round and bound block id are unchanged. A 52-card deck is left with 46 cards. -/
theorem handleDeal_deals_top_six (w : PokerWorker) (hp : w.playerHand = [])
    (_hs : w.satoshisHand = []) (hn : 6 ≤ w.deck.length) :
    (handleDeal w).thrown = none ∧
    (handleDeal w).worker.playerHand =
      [w.deck[w.deck.length - 1], w.deck[w.deck.length - 3], w.deck[w.deck.length - 5]] ∧
    (handleDeal w).worker.satoshisHand =
      [w.deck[w.deck.length - 2], w.deck[w.deck.length - 4], w.deck[w.deck.length - 6]] ∧
    (handleDeal w).worker.deck = w.deck.take (w.deck.length - 6) ∧
    (handleDeal w).worker.round = w.round ∧
    (handleDeal w).worker.currentBlockHash = w.currentBlockHash ∧
    (handleDeal w).worker.deck.length = w.deck.length - 6 ∧
    (w.deck.length = 52 → (handleDeal w).worker.deck.length = 46) ∧
    (handleDeal w).worker.playerHand.length = 3 ∧
    (handleDeal w).worker.satoshisHand.length = 3 := by
  obtain ⟨rest, c6, c5, c4, c3, c2, c1, hdeck, hd⟩ := handleDeal_of_six w hp hn
  rw [hd]
  dsimp only
  refine ⟨rfl, ?_, ?_, ?_, rfl, rfl, ?_, ?_, rfl, rfl⟩
  · simp [hdeck, List.getElem_append_right]
  · simp [hdeck, List.getElem_append_right]
  · simp [hdeck]
  · simp [hdeck]
  · intro h
    rw [hdeck] at h
    simp at h
    omega

/-- C9 witness: a deal from the example worker, which holds seven cards. -/
theorem handleDeal_deals_top_six_witness :
    exampleWorker.playerHand = [] ∧ exampleWorker.satoshisHand = [] ∧
    6 ≤ exampleWorker.deck.length ∧
    (handleDeal exampleWorker).thrown = none ∧
    (handleDeal exampleWorker).worker.playerHand = [⟨8, 2⟩, ⟨6, 0⟩, ⟨4, 2⟩] ∧
    (handleDeal exampleWorker).worker.satoshisHand = [⟨7, 1⟩, ⟨5, 3⟩, ⟨3, 1⟩] ∧
    (handleDeal exampleWorker).worker.deck = [⟨2, 0⟩] :=
  have h := handleDeal_deals_top_six exampleWorker rfl rfl (by decide)
  ⟨rfl, rfl, by decide, h.1, h.2.1, h.2.2.1, h.2.2.2.1⟩

/-- C10: with no player hand dealt, Deal fails with the insufficient-cards error exactly when
the deck holds fewer than 6 cards, and succeeds otherwise; whenever it fails the worker, hence
the session, is left unchanged. In particular Deal on an empty deck fails. -/
theorem handleDeal_insufficient_iff (w : PokerWorker) (hp : w.playerHand = []) :
    ((∃ e : Exn, (handleDeal w).thrown = some e ∧ isInsufficientCards e) ↔ w.deck.length < 6) ∧
    ((handleDeal w).thrown = none ↔ 6 ≤ w.deck.length) ∧
    ((handleDeal w).thrown ≠ none →
      (handleDeal w).worker = w ∧ (handleDeal w).worker.session = w.session) ∧
    (w.deck = [] → ∃ e : Exn, (handleDeal w).thrown = some e ∧ isInsufficientCards e) := by
  have hlt3 : w.deck.length < 3 → handleDeal w =
      ⟨some (.JSONRPCError .RPC_MISC_ERROR "Not enough cards to deal. Wait for the next block!"),
        w⟩ := by
    intro h
    simp only [handleDeal, h, if_true]
  have hlt6 : ¬ w.deck.length < 3 → w.deck.length < 6 → handleDeal w =
      ⟨some (.runtime_error "Not enough cards to deal. Game over! Wait for the next block!"),
        w⟩ := by
    intro h3 h6
    simp only [handleDeal, DealCards, h3, h6, hp, if_true, if_false, List.isEmpty_nil,
      Bool.not_true, Bool.false_eq_true]
  have hfail : w.deck.length < 6 →
      (∃ e : Exn, (handleDeal w).thrown = some e ∧ isInsufficientCards e) ∧
        (handleDeal w).worker = w := by
    intro h6
    by_cases h3 : w.deck.length < 3
    · rw [hlt3 h3]
      exact ⟨⟨_, rfl, Or.inl rfl⟩, rfl⟩
    · rw [hlt6 h3 h6]
      exact ⟨⟨_, rfl, Or.inr rfl⟩, rfl⟩
  have hok : 6 ≤ w.deck.length → (handleDeal w).thrown = none := by
    intro h6
    obtain ⟨rest, c6, c5, c4, c3, c2, c1, _, hd⟩ := handleDeal_of_six w hp h6
    rw [hd]
  refine ⟨⟨?_, fun h => (hfail h).1⟩, ⟨?_, hok⟩, ?_, ?_⟩
  · rintro ⟨e, he, _⟩
    by_contra hge
    rw [hok (by omega)] at he
    exact Option.noConfusion he
  · intro hnone
    by_contra hlt
    obtain ⟨⟨e, he, _⟩, _⟩ := hfail (by omega)
    rw [hnone] at he
    exact Option.noConfusion he
  · intro hne
    have hlt : w.deck.length < 6 := by
      by_contra hge
      exact hne (hok (by omega))
    have hw := (hfail hlt).2
    exact ⟨hw, by rw [hw]⟩
  · intro hnil
    exact (hfail (by rw [hnil]; decide)).1

/-- C10 witness: a deal from the example worker with four cards fails and changes nothing. -/
theorem handleDeal_insufficient_iff_witness :
    exampleWorkerFourCards.playerHand = [] ∧
    (∃ e : Exn, (handleDeal exampleWorkerFourCards).thrown = some e ∧ isInsufficientCards e) ∧
    (handleDeal exampleWorkerFourCards).worker = exampleWorkerFourCards :=
  have h := handleDeal_insufficient_iff exampleWorkerFourCards rfl
  ⟨rfl, h.1.2 (by decide), (h.2.2.1 (by decide)).1⟩

/-! ## Deal, Showdown and Fold: the cases of each handler -/

theorem handleDeal_of_hand (w : PokerWorker) (hp : w.playerHand ≠ []) (hn : 3 ≤ w.deck.length) :
    handleDeal w = ⟨some alreadyDealt, w⟩ := by
  have h3 : ¬ w.deck.length < 3 := by omega
  have he : w.playerHand.isEmpty = false := by
    cases hw : w.playerHand with
    | nil => exact absurd hw hp
    | cons c cs => rfl
  simp only [handleDeal, h3, he, if_false, Bool.not_false, if_true, alreadyDealt]

theorem handleDeal_of_short (w : PokerWorker) (hn : w.deck.length < 3) :
    handleDeal w = ⟨some (.JSONRPCError .RPC_MISC_ERROR
      "Not enough cards to deal. Wait for the next block!"), w⟩ := by
  simp only [handleDeal, hn, if_true]

theorem handleDeal_of_few (w : PokerWorker) (hp : w.playerHand = []) (h3 : 3 ≤ w.deck.length)
    (h6 : w.deck.length < 6) :
    handleDeal w = ⟨some (.runtime_error
      "Not enough cards to deal. Game over! Wait for the next block!"), w⟩ := by
  have h3n : ¬ w.deck.length < 3 := by omega
  simp only [handleDeal, DealCards, h3n, h6, hp, if_true, if_false, List.isEmpty_nil,
    Bool.not_true, Bool.false_eq_true]

/-- Either `handleDeal` throws and leaves the worker as it was, or the player hand was empty
and the six top cards are handed out. -/
theorem handleDeal_cases (w : PokerWorker) :
    ((handleDeal w).thrown ≠ none ∧ (handleDeal w).worker = w) ∨
    (w.playerHand = [] ∧ ∃ (rest : List Card) (c6 c5 c4 c3 c2 c1 : Card),
      w.deck = rest ++ [c6, c5, c4, c3, c2, c1] ∧
      handleDeal w = ⟨none, ⟨[c1, c3, c5], [c2, c4, c6], rest, w.currentBlockHash, w.round,
        w.m_running, w.m_shutdown, w.m_node⟩⟩) := by
  by_cases h3 : w.deck.length < 3
  · left
    rw [handleDeal_of_short w h3]
    exact ⟨by simp, rfl⟩
  · by_cases hp : w.playerHand = []
    · by_cases h6 : w.deck.length < 6
      · left
        rw [handleDeal_of_few w hp (by omega) h6]
        exact ⟨by simp, rfl⟩
      · right
        exact ⟨hp, handleDeal_of_six w hp (by omega)⟩
    · left
      rw [handleDeal_of_hand w hp (by omega)]
      exact ⟨by simp, rfl⟩

theorem EvaluateHand_isSome (hand : List Card) (h : 3 ≤ hand.length) :
    ∃ score : Int, EvaluateHand hand = some score := by
  have hl : (sortDescending (hand.map (fun card => card.rank))).length = hand.length := by
    unfold sortDescending
    rw [List.length_insertionSort, List.length_map]
  unfold EvaluateHand
  dsimp only
  generalize sortDescending (hand.map (fun card => card.rank)) = sorted at hl
  match sorted, hl with
  | [], hl => simp only [List.length_nil] at hl; omega
  | [_], hl => simp only [List.length_cons, List.length_nil] at hl; omega
  | [_, _], hl => simp only [List.length_cons, List.length_nil] at hl; omega
  | r0 :: r1 :: r2 :: _, _ =>
    dsimp only
    split_ifs <;> exact ⟨_, rfl⟩

theorem isEmpty_eq_false_of_ne_nil (l : List Card) (h : l ≠ []) : l.isEmpty = false := by
  cases l with
  | nil => exact absurd rfl h
  | cons c cs => rfl

/-- The outcome of `handlePlay` on a worker with a non-empty player hand, two hands that can
be scored and a round other than `INT_MAX`. -/
theorem handlePlay_of_scores (w : PokerWorker) (ps ss : Int) (hp : w.playerHand ≠ [])
    (h1 : EvaluateHand w.playerHand = some ps) (h2 : EvaluateHand w.satoshisHand = some ss)
    (hr : w.round ≠ INT_MAX) :
    handlePlay w = ⟨none,
      ⟨[], [], w.deck, w.currentBlockHash, w.round + 1, w.m_running, w.m_shutdown, w.m_node⟩,
      some ⟨w.currentBlockHash, w.round, GetHandDescription ps, GetHandDescription ss,
        decide (ps > ss),
        if decide (ps > ss) = true then "Result: You won!\n" else "Result: You lost!\n"⟩⟩ := by
  have hne : ¬ w.round = INT_MAX := hr
  simp only [handlePlay, isEmpty_eq_false_of_ne_nil _ hp, h1, h2, incrementInt, hne, if_false,
    Bool.false_eq_true]

theorem handlePlay_of_overflow (w : PokerWorker) (hr : w.round = INT_MAX) :
    (handlePlay w).thrown ≠ none ∧ (handlePlay w).worker = w ∧ (handlePlay w).report = none := by
  unfold handlePlay
  split_ifs
  · exact ⟨by simp, rfl, rfl⟩
  · dsimp only
    cases EvaluateHand w.playerHand with
    | none => exact ⟨by simp, rfl, rfl⟩
    | some ps =>
      cases EvaluateHand w.satoshisHand with
      | none => exact ⟨by simp, rfl, rfl⟩
      | some ss => simp [incrementInt, hr]

/-- Either `handlePlay` throws, reports nothing and leaves the worker as it was, or it returns
a report, advances the round by one and clears both hands. -/
theorem handlePlay_cases (w : PokerWorker) :
    ((handlePlay w).thrown ≠ none ∧ (handlePlay w).worker = w ∧ (handlePlay w).report = none) ∨
    (w.playerHand ≠ [] ∧ w.round ≠ INT_MAX ∧ ∃ ps ss : Int,
      EvaluateHand w.playerHand = some ps ∧ EvaluateHand w.satoshisHand = some ss ∧
      handlePlay w = ⟨none,
        ⟨[], [], w.deck, w.currentBlockHash, w.round + 1, w.m_running, w.m_shutdown, w.m_node⟩,
        some ⟨w.currentBlockHash, w.round, GetHandDescription ps, GetHandDescription ss,
          decide (ps > ss),
          if decide (ps > ss) = true then "Result: You won!\n" else "Result: You lost!\n"⟩⟩) := by
  by_cases hp : w.playerHand = []
  · left
    simp [handlePlay, hp]
  · by_cases hr : w.round = INT_MAX
    · left
      exact handlePlay_of_overflow w hr
    · cases h1 : EvaluateHand w.playerHand with
      | none =>
        left
        simp [handlePlay, isEmpty_eq_false_of_ne_nil _ hp, h1]
      | some ps =>
        cases h2 : EvaluateHand w.satoshisHand with
        | none =>
          left
          simp [handlePlay, isEmpty_eq_false_of_ne_nil _ hp, h1, h2]
        | some ss =>
          right
          exact ⟨hp, hr, ps, ss, rfl, rfl, handlePlay_of_scores w ps ss hp h1 h2 hr⟩

theorem handleFold_of_hand (w : PokerWorker) (hp : w.playerHand ≠ []) (hr : w.round ≠ INT_MAX) :
    handleFold w = ⟨none,
      ⟨[], [], w.deck, w.currentBlockHash, w.round + 1, w.m_running, w.m_shutdown, w.m_node⟩⟩ := by
  have hne : ¬ w.round = INT_MAX := hr
  simp only [handleFold, isEmpty_eq_false_of_ne_nil _ hp, incrementInt, hne, if_false,
    Bool.false_eq_true]

/-- Either `handleFold` throws and leaves the worker as it was, or it advances the round by
one and clears both hands. -/
theorem handleFold_cases (w : PokerWorker) :
    ((handleFold w).thrown ≠ none ∧ (handleFold w).worker = w) ∨
    (w.playerHand ≠ [] ∧ w.round ≠ INT_MAX ∧ handleFold w = ⟨none,
      ⟨[], [], w.deck, w.currentBlockHash, w.round + 1, w.m_running, w.m_shutdown, w.m_node⟩⟩) := by
  by_cases hp : w.playerHand = []
  · left
    simp [handleFold, hp]
  · by_cases hr : w.round = INT_MAX
    · left
      simp [handleFold, isEmpty_eq_false_of_ne_nil _ hp, incrementInt, hr]
    · right
      exact ⟨hp, hr, handleFold_of_hand w hp hr⟩

/-! ## Invariants of the session state machine -/

theorem ActiveTipChange_cases (lib : Library) (new_tip : CBlockIndex) (is_ibd : Bool)
    (w : PokerWorker) :
    ActiveTipChange lib new_tip is_ibd w = w ∨
    (ActiveTipChange lib new_tip is_ibd w).session = specReseed lib new_tip.GetBlockHash := by
  unfold ActiveTipChange
  split_ifs
  · exact Or.inl rfl
  · exact Or.inl rfl
  · exact Or.inl rfl
  · exact Or.inr rfl

theorem specReseed_deck_nodup (lib : Library) (blockId : uint256) :
    (specReseed lib blockId).deck.Nodup := by
  unfold specReseed specShuffle
  dsimp only
  exact (applySwaps_perm _ _).nodup_iff.2 canonicalDeck_nodup

/-- The worker right after a tip change that is not skipped. -/
theorem reseeded_fields (w : PokerWorker) (lib : Library) (blockId : uint256)
    (h : w.session = specReseed lib blockId) :
    w.deck.Nodup ∧ w.deck.length = 52 ∧ w.playerHand = [] ∧ w.satoshisHand = [] ∧ w.round = 1 := by
  have hd : w.deck = (specReseed lib blockId).deck := congrArg Session.deck h
  have hp : w.playerHand = [] := congrArg Session.playerHand h
  have hs : w.satoshisHand = [] := congrArg Session.opponentHand h
  have hr : w.round = 1 := congrArg Session.round h
  refine ⟨?_, ?_, hp, hs, hr⟩
  · rw [hd]; exact specReseed_deck_nodup lib blockId
  · rw [hd]; exact specReseed_deck_length lib blockId

theorem six_cards_perm (rest : List Card) (c6 c5 c4 c3 c2 c1 : Card) :
    List.Perm (rest ++ [c1, c3, c5] ++ [c2, c4, c6]) (rest ++ [c6, c5, c4, c3, c2, c1]) := by
  rw [List.append_assoc]
  apply List.Perm.append_left
  rw [List.perm_iff_count]
  intro a
  simp only [List.cons_append, List.nil_append, List.count_cons, List.count_nil]
  omega

theorem cardsInvariant_step (lib : Library) (w : PokerWorker) (a : Action)
    (h : w.cardsInvariant) : (step lib w a).cardsInvariant := by
  obtain ⟨hnd, hlen, hshape⟩ := h
  cases a with
  | reseed new_tip is_ibd =>
    rcases ActiveTipChange_cases lib new_tip is_ibd w with hsame | hre
    · show (ActiveTipChange lib new_tip is_ibd w).cardsInvariant
      rw [hsame]
      exact ⟨hnd, hlen, hshape⟩
    · obtain ⟨f1, f2, f3, f4, _⟩ := reseeded_fields _ lib _ hre
      show (ActiveTipChange lib new_tip is_ibd w).cardsInvariant
      unfold PokerWorker.cardsInvariant PokerWorker.allCards PokerWorker.handsShape
      rw [f3, f4]
      simp only [List.append_nil]
      exact ⟨f1, by omega, Or.inl ⟨trivial, trivial⟩⟩
  | deal =>
    show (handleDeal w).worker.cardsInvariant
    rcases handleDeal_cases w with ⟨_, hsame⟩ | ⟨hp, rest, c6, c5, c4, c3, c2, c1, hdeck, hd⟩
    · rw [hsame]
      exact ⟨hnd, hlen, hshape⟩
    · have hs : w.satoshisHand = [] := by
        rcases hshape with ⟨_, h2⟩ | ⟨h1, _⟩
        · exact h2
        · rw [hp] at h1
          simp at h1
      have hperm := six_cards_perm rest c6 c5 c4 c3 c2 c1
      unfold PokerWorker.allCards at hnd hlen
      rw [hdeck, hp, hs] at hnd hlen
      simp only [List.append_nil] at hnd hlen
      rw [hd]
      unfold PokerWorker.cardsInvariant PokerWorker.allCards PokerWorker.handsShape
      dsimp only
      exact ⟨hperm.nodup_iff.2 hnd, by rw [hperm.length_eq]; exact hlen, Or.inr ⟨rfl, rfl⟩⟩
  | showdown =>
    show (handlePlay w).worker.cardsInvariant
    rcases handlePlay_cases w with ⟨_, hsame, _⟩ | ⟨_, _, ps, ss, _, _, heq⟩
    · rw [hsame]
      exact ⟨hnd, hlen, hshape⟩
    · rw [heq]
      unfold PokerWorker.allCards at hnd hlen
      unfold PokerWorker.cardsInvariant PokerWorker.allCards PokerWorker.handsShape
      dsimp only
      simp only [List.append_nil]
      refine ⟨(List.nodup_append.1 (List.nodup_append.1 hnd).1).1, ?_, Or.inl ⟨trivial, trivial⟩⟩
      simp only [List.length_append] at hlen
      omega
  | fold =>
    show (handleFold w).worker.cardsInvariant
    rcases handleFold_cases w with ⟨_, hsame⟩ | ⟨_, _, heq⟩
    · rw [hsame]
      exact ⟨hnd, hlen, hshape⟩
    · rw [heq]
      unfold PokerWorker.allCards at hnd hlen
      unfold PokerWorker.cardsInvariant PokerWorker.allCards PokerWorker.handsShape
      dsimp only
      simp only [List.append_nil]
      refine ⟨(List.nodup_append.1 (List.nodup_append.1 hnd).1).1, ?_, Or.inl ⟨trivial, trivial⟩⟩
      simp only [List.length_append] at hlen
      omega

theorem cardsInvariant_run (lib : Library) (actions : List Action) (w : PokerWorker)
    (h : w.cardsInvariant) : (run lib actions w).cardsInvariant := by
  induction actions generalizing w with
  | nil => exact h
  | cons a rest ih => exact ih (step lib w a) (cardsInvariant_step lib w a h)

/-- C16: in every state reached from the initial state (empty deck, no hands) by any sequence
of tip changes, Deals, Showdowns and Folds, the cards of the deck and of the two hands taken
together hold no card twice and number at most 52, and the two hands are either both empty or
both of exactly three cards. -/
theorem reachable_cards_invariant (lib : Library) (w0 : PokerWorker) (h0 : w0.isInitial)
    (actions : List Action) :
    (run lib actions w0).allCards.Nodup ∧
    (run lib actions w0).allCards.length ≤ 52 ∧
    (((run lib actions w0).playerHand = [] ∧ (run lib actions w0).satoshisHand = []) ∨
      ((run lib actions w0).playerHand.length = 3 ∧
        (run lib actions w0).satoshisHand.length = 3)) := by
  obtain ⟨hd, hp, hs⟩ := h0
  have hinit : w0.cardsInvariant := by
    unfold PokerWorker.cardsInvariant PokerWorker.allCards PokerWorker.handsShape
    rw [hd, hp, hs]
    exact ⟨List.nodup_nil, by simp, Or.inl ⟨rfl, rfl⟩⟩
  exact cardsInvariant_run lib actions w0 hinit

/-- C16 witness: tip change, Deal, Showdown, Deal from the initial example worker. -/
theorem reachable_cards_invariant_witness :
    exampleWorkerInitial.isInitial ∧
    (run exampleLibrary [.reseed exampleTip false, .deal, .showdown, .deal]
      exampleWorkerInitial).allCards.Nodup ∧
    (run exampleLibrary [.reseed exampleTip false, .deal, .showdown, .deal]
      exampleWorkerInitial).allCards.length ≤ 52 :=
  have h := reachable_cards_invariant exampleLibrary exampleWorkerInitial (by decide)
    [.reseed exampleTip false, .deal, .showdown, .deal]
  ⟨by decide, h.1, h.2.1⟩

theorem INT_MAX_eq : INT_MAX = 2147483647 := rfl

theorem roundInvariant_step (lib : Library) (w : PokerWorker) (a : Action)
    (ha : a.isReseed = false) (h : w.roundInvariant) : (step lib w a).roundInvariant := by
  obtain ⟨hshape, hdeck, hr1, hr9⟩ := h
  cases a with
  | reseed new_tip is_ibd => exact absurd ha (by simp [Action.isReseed])
  | deal =>
    show (handleDeal w).worker.roundInvariant
    rcases handleDeal_cases w with ⟨_, hsame⟩ | ⟨hp, rest, c6, c5, c4, c3, c2, c1, hd, heq⟩
    · rw [hsame]
      exact ⟨hshape, hdeck, hr1, hr9⟩
    · have hs : w.satoshisHand = [] := by
        rcases hshape with ⟨_, h2⟩ | ⟨h1, _⟩
        · exact h2
        · rw [hp] at h1
          simp at h1
      rw [hd, hp, hs] at hdeck
      simp only [List.length_append, List.length_cons, List.length_nil, Nat.cast_add,
        Nat.cast_ofNat] at hdeck
      rw [heq]
      unfold PokerWorker.roundInvariant PokerWorker.handsShape
      dsimp only
      refine ⟨Or.inr ⟨rfl, rfl⟩, ?_, hr1, hr9⟩
      simp only [List.length_cons, List.length_nil]
      push_cast
      omega
  | showdown =>
    show (handlePlay w).worker.roundInvariant
    rcases handlePlay_cases w with ⟨_, hsame, _⟩ | ⟨hp, _, ps, ss, _, _, heq⟩
    · rw [hsame]
      exact ⟨hshape, hdeck, hr1, hr9⟩
    · have hl : w.playerHand.length = 3 ∧ w.satoshisHand.length = 3 := by
        rcases hshape with ⟨h1, _⟩ | h
        · exact absurd h1 hp
        · exact h
      rw [hl.1, hl.2] at hdeck
      rw [heq]
      unfold PokerWorker.roundInvariant PokerWorker.handsShape
      dsimp only
      refine ⟨Or.inl ⟨rfl, rfl⟩, ?_, ?_, ?_⟩
      · simp only [List.length_nil]
        push_cast at hdeck ⊢
        omega
      · omega
      · push_cast at hdeck
        omega
  | fold =>
    show (handleFold w).worker.roundInvariant
    rcases handleFold_cases w with ⟨_, hsame⟩ | ⟨hp, _, heq⟩
    · rw [hsame]
      exact ⟨hshape, hdeck, hr1, hr9⟩
    · have hl : w.playerHand.length = 3 ∧ w.satoshisHand.length = 3 := by
        rcases hshape with ⟨h1, _⟩ | h
        · exact absurd h1 hp
        · exact h
      rw [hl.1, hl.2] at hdeck
      rw [heq]
      unfold PokerWorker.roundInvariant PokerWorker.handsShape
      dsimp only
      refine ⟨Or.inl ⟨rfl, rfl⟩, ?_, ?_, ?_⟩
      · simp only [List.length_nil]
        push_cast at hdeck ⊢
        omega
      · omega
      · push_cast at hdeck
        omega

theorem roundInvariant_run (lib : Library) (actions : List Action) (w : PokerWorker)
    (ha : ∀ a ∈ actions, a.isReseed = false) (h : w.roundInvariant) :
    (run lib actions w).roundInvariant := by
  induction actions generalizing w with
  | nil => exact h
  | cons a rest ih =>
    exact ih (step lib w a) (fun b hb => ha b (List.mem_cons_of_mem a hb))
      (roundInvariant_step lib w a (ha a (List.mem_cons_self a rest)) h)

theorem roundInvariant_of_reseed (lib : Library) (new_tip : CBlockIndex) (w0 : PokerWorker)
    (hr : w0.m_running = true) (hl : w0.m_node.wallet_loader = true) :
    (ActiveTipChange lib new_tip false w0).roundInvariant := by
  have hre : (ActiveTipChange lib new_tip false w0).session
      = specReseed lib new_tip.GetBlockHash := by
    simp only [ActiveTipChange, hr, hl, Bool.not_true, Bool.false_eq_true, if_false]
    rfl
  obtain ⟨_, f2, f3, f4, f5⟩ := reseeded_fields _ lib _ hre
  unfold PokerWorker.roundInvariant PokerWorker.handsShape
  rw [f2, f3, f4, f5]
  exact ⟨Or.inl ⟨rfl, rfl⟩, by simp, by omega, by omega⟩

/-- One cycle from a state between cycles with at least 6 cards: the Deal and the Showdown or
Fold both succeed and lead to the next state between cycles. -/
theorem betweenCycles_step (w : PokerWorker) (k : Nat) (hk : k < 8) (h : w.betweenCycles k)
    (showdown : Bool) :
    playCycleSucceeds w showdown = true ∧ (playCycle w showdown).betweenCycles (k + 1) := by
  obtain ⟨hp, hs, hdeck, hround⟩ := h
  obtain ⟨rest, c6, c5, c4, c3, c2, c1, hd, heq⟩ := handleDeal_of_six w hp (by omega)
  have hrest : rest.length + 6 * (k + 1) = 52 := by
    rw [hd] at hdeck
    simp only [List.length_append, List.length_cons, List.length_nil] at hdeck
    omega
  have hmax : w.round ≠ INT_MAX := by
    rw [INT_MAX_eq]
    omega
  obtain ⟨ps, e1⟩ := EvaluateHand_isSome [c1, c3, c5] (by simp)
  obtain ⟨ss, e2⟩ := EvaluateHand_isSome [c2, c4, c6] (by simp)
  have hplay := handlePlay_of_scores ⟨[c1, c3, c5], [c2, c4, c6], rest, w.currentBlockHash,
    w.round, w.m_running, w.m_shutdown, w.m_node⟩ ps ss (by simp) e1 e2 hmax
  have hfold := handleFold_of_hand ⟨[c1, c3, c5], [c2, c4, c6], rest, w.currentBlockHash,
    w.round, w.m_running, w.m_shutdown, w.m_node⟩ (by simp) hmax
  dsimp only at hplay hfold
  unfold playCycleSucceeds playCycle PokerWorker.betweenCycles
  rw [heq]
  dsimp only
  rw [hplay, hfold]
  cases showdown
  · refine ⟨rfl, rfl, rfl, hrest, ?_⟩
    show w.round + 1 = 1 + ((k + 1 : Nat) : Int)
    push_cast
    omega
  · refine ⟨rfl, rfl, rfl, hrest, ?_⟩
    show w.round + 1 = 1 + ((k + 1 : Nat) : Int)
    push_cast
    omega

theorem betweenCycles_playCycles (cycles : List Bool) (w : PokerWorker) (k : Nat)
    (hk : k + cycles.length ≤ 8) (h : w.betweenCycles k) :
    (playCycles cycles w).betweenCycles (k + cycles.length) := by
  induction cycles generalizing w k with
  | nil => exact h
  | cons b rest ih =>
    simp only [List.length_cons] at hk ⊢
    have hstep := (betweenCycles_step w k (by omega) h b).2
    have := ih (playCycle w b) (k + 1) (by omega) hstep
    rw [show k + (rest.length + 1) = k + 1 + rest.length by omega]
    exact this

/-- C17: in every state reached from a tip change that is not skipped by Deals, Showdowns and
Folds alone, the deck holds `52 - 6 * (round - 1) - |playerHand| - |satoshisHand|` cards and
the round lies in 1..9. Hence, repeating Deal followed by Showdown or Fold from a fresh tip
change, each of the first 8 cycles succeeds, and after 8 cycles the deck holds 4 cards and the
9th Deal fails with the insufficient-cards error, leaving the worker unchanged. -/
theorem after_reseed_round_invariant (lib : Library) (new_tip : CBlockIndex) (w0 : PokerWorker)
    (hr : w0.m_running = true) (hl : w0.m_node.wallet_loader = true) :
    (∀ actions : List Action, (∀ a ∈ actions, a.isReseed = false) →
      ((run lib actions (ActiveTipChange lib new_tip false w0)).deck.length : Int) =
        52 - 6 * ((run lib actions (ActiveTipChange lib new_tip false w0)).round - 1)
          - (run lib actions (ActiveTipChange lib new_tip false w0)).playerHand.length
          - (run lib actions (ActiveTipChange lib new_tip false w0)).satoshisHand.length ∧
      1 ≤ (run lib actions (ActiveTipChange lib new_tip false w0)).round ∧
      (run lib actions (ActiveTipChange lib new_tip false w0)).round ≤ 9) ∧
    (∀ cycles : List Bool, cycles.length ≤ 8 →
      (playCycles cycles (ActiveTipChange lib new_tip false w0)).deck.length
        = 52 - 6 * cycles.length ∧
      (playCycles cycles (ActiveTipChange lib new_tip false w0)).round = 1 + cycles.length ∧
      (playCycles cycles (ActiveTipChange lib new_tip false w0)).playerHand = [] ∧
      (playCycles cycles (ActiveTipChange lib new_tip false w0)).satoshisHand = [] ∧
      (cycles.length < 8 → ∀ showdown : Bool,
        playCycleSucceeds (playCycles cycles (ActiveTipChange lib new_tip false w0)) showdown
          = true) ∧
      (cycles.length = 8 →
        (playCycles cycles (ActiveTipChange lib new_tip false w0)).deck.length = 4 ∧
        (∃ e : Exn,
          (handleDeal (playCycles cycles (ActiveTipChange lib new_tip false w0))).thrown = some e ∧
            isInsufficientCards e) ∧
        (handleDeal (playCycles cycles (ActiveTipChange lib new_tip false w0))).worker
          = playCycles cycles (ActiveTipChange lib new_tip false w0))) := by
  have hre : (ActiveTipChange lib new_tip false w0).session = specReseed lib new_tip.GetBlockHash := by
    simp only [ActiveTipChange, hr, hl, Bool.not_true, Bool.false_eq_true, if_false]
    rfl
  obtain ⟨_, f2, f3, f4, f5⟩ := reseeded_fields _ lib _ hre
  constructor
  · intro actions hno
    have hstart : (ActiveTipChange lib new_tip false w0).roundInvariant := by
      unfold PokerWorker.roundInvariant PokerWorker.handsShape
      rw [f2, f3, f4, f5]
      exact ⟨Or.inl ⟨rfl, rfl⟩, by simp, by omega, by omega⟩
    obtain ⟨_, g1, g2, g3⟩ := roundInvariant_run lib actions _ hno hstart
    exact ⟨g1, g2, g3⟩
  · intro cycles hlen
    have hstart : (ActiveTipChange lib new_tip false w0).betweenCycles 0 := by
      unfold PokerWorker.betweenCycles
      exact ⟨f3, f4, by omega, by rw [f5]; simp⟩
    have hend := betweenCycles_playCycles cycles _ 0 (by omega) hstart
    rw [Nat.zero_add] at hend
    obtain ⟨e1, e2, e3, e4⟩ := hend
    refine ⟨by omega, e4, e1, e2, ?_, ?_⟩
    · intro hlt showdown
      exact (betweenCycles_step _ cycles.length hlt ⟨e1, e2, e3, e4⟩ showdown).1
    · intro h8
      have h4 : (playCycles cycles (ActiveTipChange lib new_tip false w0)).deck.length = 4 := by
        omega
      rw [handleDeal_of_few _ e1 (by omega) (by omega)]
      exact ⟨h4, ⟨_, rfl, Or.inr rfl⟩, rfl⟩

/-- C17 witness: eight cycles from a tip change on the initial example worker, then the ninth
Deal. -/
theorem after_reseed_round_invariant_witness :
    exampleWorkerInitial.m_running = true ∧ exampleWorkerInitial.m_node.wallet_loader = true ∧
    (playCycles [true, false, true, true, false, false, true, true]
      (ActiveTipChange exampleLibrary exampleTip false exampleWorkerInitial)).deck.length = 4 ∧
    (playCycles [true, false, true, true, false, false, true, true]
      (ActiveTipChange exampleLibrary exampleTip false exampleWorkerInitial)).round = 9 ∧
    (∃ e : Exn,
      (handleDeal (playCycles [true, false, true, true, false, false, true, true]
        (ActiveTipChange exampleLibrary exampleTip false exampleWorkerInitial))).thrown = some e ∧
        isInsufficientCards e) :=
  have h := (after_reseed_round_invariant exampleLibrary exampleTip exampleWorkerInitial
    rfl rfl).2 [true, false, true, true, false, false, true, true] (by decide)
  ⟨rfl, rfl, (h.2.2.2.2.2 rfl).1, h.2.1, (h.2.2.2.2.2 rfl).2.1⟩

/-! ## Claims on Deal, Showdown and Fold -/

theorem ActiveTipChange_session_of_running (lib : Library) (new_tip : CBlockIndex)
    (w0 : PokerWorker) (hr : w0.m_running = true) (hl : w0.m_node.wallet_loader = true) :
    (ActiveTipChange lib new_tip false w0).session = specReseed lib new_tip.GetBlockHash := by
  simp only [ActiveTipChange, hr, hl, Bool.not_true, Bool.false_eq_true, if_false]
  rfl

theorem deckSizeInvariant_step (lib : Library) (w : PokerWorker) (a : Action)
    (h : w.deckSizeInvariant) : (step lib w a).deckSizeInvariant := by
  obtain ⟨hshape, hsize⟩ := h
  cases a with
  | reseed new_tip is_ibd =>
    show (ActiveTipChange lib new_tip is_ibd w).deckSizeInvariant
    rcases ActiveTipChange_cases lib new_tip is_ibd w with hsame | hre
    · rw [hsame]
      exact ⟨hshape, hsize⟩
    · obtain ⟨_, f2, f3, f4, _⟩ := reseeded_fields _ lib _ hre
      unfold PokerWorker.deckSizeInvariant PokerWorker.handsShape
      rw [f2, f3, f4]
      exact ⟨Or.inl ⟨rfl, rfl⟩, Or.inr rfl⟩
  | deal =>
    show (handleDeal w).worker.deckSizeInvariant
    rcases handleDeal_cases w with ⟨_, hsame⟩ | ⟨hp, rest, c6, c5, c4, c3, c2, c1, hdeck, hd⟩
    · rw [hsame]
      exact ⟨hshape, hsize⟩
    · have hlen : w.deck.length = rest.length + 6 := by rw [hdeck]; simp
      have hmod : rest.length % 6 = 4 := by
        rcases hsize with ⟨hnil, _⟩ | hm
        · rw [hnil] at hlen
          simp at hlen
        · omega
      rw [hd]
      unfold PokerWorker.deckSizeInvariant PokerWorker.handsShape
      dsimp only
      exact ⟨Or.inr ⟨rfl, rfl⟩, Or.inr hmod⟩
  | showdown =>
    show (handlePlay w).worker.deckSizeInvariant
    rcases handlePlay_cases w with ⟨_, hsame, _⟩ | ⟨hp, _, ps, ss, _, _, heq⟩
    · rw [hsame]
      exact ⟨hshape, hsize⟩
    · have hmod : w.deck.length % 6 = 4 := by
        rcases hsize with ⟨_, hnil⟩ | hm
        · exact absurd hnil hp
        · exact hm
      rw [heq]
      unfold PokerWorker.deckSizeInvariant PokerWorker.handsShape
      dsimp only
      exact ⟨Or.inl ⟨rfl, rfl⟩, Or.inr hmod⟩
  | fold =>
    show (handleFold w).worker.deckSizeInvariant
    rcases handleFold_cases w with ⟨_, hsame⟩ | ⟨hp, _, heq⟩
    · rw [hsame]
      exact ⟨hshape, hsize⟩
    · have hmod : w.deck.length % 6 = 4 := by
        rcases hsize with ⟨_, hnil⟩ | hm
        · exact absurd hnil hp
        · exact hm
      rw [heq]
      unfold PokerWorker.deckSizeInvariant PokerWorker.handsShape
      dsimp only
      exact ⟨Or.inl ⟨rfl, rfl⟩, Or.inr hmod⟩

theorem deckSizeInvariant_run (lib : Library) (actions : List Action) (w : PokerWorker)
    (h : w.deckSizeInvariant) : (run lib actions w).deckSizeInvariant := by
  induction actions generalizing w with
  | nil => exact h
  | cons a rest ih => exact ih (step lib w a) (deckSizeInvariant_step lib w a h)

theorem deckSizeInvariant_of_isInitial (w : PokerWorker) (h : w.isInitial) :
    w.deckSizeInvariant := by
  obtain ⟨hd, hp, hs⟩ := h
  exact ⟨Or.inl ⟨hp, hs⟩, Or.inl ⟨hd, hp⟩⟩

/-- C11: in every state reached from the initial state by tip changes, Deals, Showdowns and
Folds, with both hands empty and at least 6 cards in the deck a Deal succeeds, and a second
Deal right after it fails with the already-dealt error and leaves the worker, hence the
session, unchanged. More generally, in every such state Deal fails with the already-dealt
error and changes nothing whenever the player hand is not empty. -/
theorem second_deal_alreadyDealt (lib : Library) (w0 : PokerWorker) (actions : List Action)
    (w : PokerWorker) (h0 : w0.isInitial) (hw : w = run lib actions w0) :
    (w.playerHand = [] → w.satoshisHand = [] → 6 ≤ w.deck.length →
      (handleDeal w).thrown = none ∧
      (handleDeal (handleDeal w).worker).thrown = some alreadyDealt ∧
      (handleDeal (handleDeal w).worker).worker = (handleDeal w).worker ∧
      (handleDeal (handleDeal w).worker).worker.session = (handleDeal w).worker.session) ∧
    (w.playerHand ≠ [] →
      (handleDeal w).thrown = some alreadyDealt ∧
      (handleDeal w).worker = w ∧ (handleDeal w).worker.session = w.session) := by
  have hinv : w.deckSizeInvariant := by
    rw [hw]
    exact deckSizeInvariant_run lib actions w0 (deckSizeInvariant_of_isInitial w0 h0)
  obtain ⟨_, hsize⟩ := hinv
  constructor
  · intro hp _ hn
    obtain ⟨rest, c6, c5, c4, c3, c2, c1, hdeck, hd⟩ := handleDeal_of_six w hp hn
    have hlen : w.deck.length = rest.length + 6 := by rw [hdeck]; simp
    have hmod : w.deck.length % 6 = 4 := by
      rcases hsize with ⟨hnil, _⟩ | hm
      · rw [hnil] at hn
        simp at hn
      · exact hm
    have hsecond := handleDeal_of_hand ⟨[c1, c3, c5], [c2, c4, c6], rest, w.currentBlockHash,
      w.round, w.m_running, w.m_shutdown, w.m_node⟩ (by simp) (by dsimp only; omega)
    rw [hd]
    dsimp only
    rw [hsecond]
    exact ⟨rfl, rfl, rfl, rfl⟩
  · intro hp
    have hmod : w.deck.length % 6 = 4 := by
      rcases hsize with ⟨_, hnil⟩ | hm
      · exact absurd hnil hp
      · exact hm
    rw [handleDeal_of_hand w hp (by omega)]
    exact ⟨rfl, rfl, rfl⟩

/-- C11 witness: two Deals in a row after a tip change on the initial example worker. -/
theorem second_deal_alreadyDealt_witness :
    exampleWorkerInitial.isInitial ∧
    (handleDeal (ActiveTipChange exampleLibrary exampleTip false exampleWorkerInitial)).thrown
      = none ∧
    (handleDeal (handleDeal (ActiveTipChange exampleLibrary exampleTip false
      exampleWorkerInitial)).worker).thrown = some alreadyDealt ∧
    (handleDeal (handleDeal (ActiveTipChange exampleLibrary exampleTip false
      exampleWorkerInitial)).worker).worker
      = (handleDeal (ActiveTipChange exampleLibrary exampleTip false
          exampleWorkerInitial)).worker :=
  have f := reseeded_fields _ _ _
    (ActiveTipChange_session_of_running exampleLibrary exampleTip exampleWorkerInitial rfl rfl)
  have h := (second_deal_alreadyDealt exampleLibrary exampleWorkerInitial
    [.reseed exampleTip false]
    (ActiveTipChange exampleLibrary exampleTip false exampleWorkerInitial) (by decide) rfl).1
    f.2.2.1 f.2.2.2.1 (by rw [f.2.1]; decide)
  ⟨by decide, h.1, h.2.1, h.2.2.1⟩

/-- C12: with both hands dealt, Showdown reports the player as winner exactly when the score
of the player hand is greater than the score of the opponent hand, both taken on the hands
before they are cleared; on equal scores the player is reported as having lost. -/
theorem handlePlay_winner (w : PokerWorker) (hp : w.playerHand.length = 3)
    (hs : w.satoshisHand.length = 3) :
    ∃ ps ss : Int, EvaluateHand w.playerHand = some ps ∧ EvaluateHand w.satoshisHand = some ss ∧
      (∀ r : PlayReport, (handlePlay w).report = some r →
        (r.winner = true ↔ ps > ss) ∧ (ps = ss → r.winner = false) ∧
        (r.resultLine = if ps > ss then "Result: You won!\n" else "Result: You lost!\n")) ∧
      (w.round ≠ INT_MAX →
        (handlePlay w).thrown = none ∧ ∃ r : PlayReport, (handlePlay w).report = some r) := by
  obtain ⟨ps, h1⟩ := EvaluateHand_isSome w.playerHand (by omega)
  obtain ⟨ss, h2⟩ := EvaluateHand_isSome w.satoshisHand (by omega)
  have hne : w.playerHand ≠ [] := by
    intro h
    rw [h] at hp
    simp at hp
  refine ⟨ps, ss, h1, h2, ?_, ?_⟩
  · intro r hr
    by_cases hmax : w.round = INT_MAX
    · rw [(handlePlay_of_overflow w hmax).2.2] at hr
      exact Option.noConfusion hr
    · rw [handlePlay_of_scores w ps ss hne h1 h2 hmax] at hr
      simp only [Option.some.injEq] at hr
      subst hr
      dsimp only
      refine ⟨by simp, ?_, by simp⟩
      intro heq
      simp [heq]
  · intro hmax
    rw [handlePlay_of_scores w ps ss hne h1 h2 hmax]
    exact ⟨rfl, _, rfl⟩

/-- C12 witness: the showdown of the example worker in a round. -/
theorem handlePlay_winner_witness :
    exampleWorkerInRound.playerHand.length = 3 ∧ exampleWorkerInRound.satoshisHand.length = 3 ∧
    ∃ ps ss : Int, EvaluateHand exampleWorkerInRound.playerHand = some ps ∧
      EvaluateHand exampleWorkerInRound.satoshisHand = some ss ∧
      (∀ r : PlayReport, (handlePlay exampleWorkerInRound).report = some r →
        (r.winner = true ↔ ps > ss)) :=
  ⟨rfl, rfl, (handlePlay_winner exampleWorkerInRound rfl rfl).imp (fun _ h => h.imp
    (fun _ g => ⟨g.1, g.2.1, fun r hr => (g.2.2.1 r hr).1⟩))⟩

/-- C13: on a worker with a non-empty player hand, a successful Showdown and a successful Fold
each increase the round by exactly 1 and leave both hands empty, while the deck and the bound
block hash are unchanged. Fold succeeds unless the round is `INT_MAX`; Showdown succeeds when
moreover both hands hold at least three cards. -/
theorem showdown_fold_effect (w : PokerWorker) (hp : w.playerHand ≠ []) :
    ((handlePlay w).thrown = none →
      (handlePlay w).worker.round = w.round + 1 ∧
      (handlePlay w).worker.playerHand = [] ∧ (handlePlay w).worker.satoshisHand = [] ∧
      (handlePlay w).worker.deck = w.deck ∧
      (handlePlay w).worker.currentBlockHash = w.currentBlockHash) ∧
    ((handleFold w).thrown = none →
      (handleFold w).worker.round = w.round + 1 ∧
      (handleFold w).worker.playerHand = [] ∧ (handleFold w).worker.satoshisHand = [] ∧
      (handleFold w).worker.deck = w.deck ∧
      (handleFold w).worker.currentBlockHash = w.currentBlockHash) ∧
    (w.round ≠ INT_MAX → (handleFold w).thrown = none) ∧
    (w.round ≠ INT_MAX → 3 ≤ w.playerHand.length → 3 ≤ w.satoshisHand.length →
      (handlePlay w).thrown = none) := by
  refine ⟨?_, ?_, ?_, ?_⟩
  · intro hok
    rcases handlePlay_cases w with ⟨hthrown, _⟩ | ⟨_, _, ps, ss, _, _, heq⟩
    · exact absurd hok hthrown
    · rw [heq]
      exact ⟨rfl, rfl, rfl, rfl, rfl⟩
  · intro hok
    rcases handleFold_cases w with ⟨hthrown, _⟩ | ⟨_, _, heq⟩
    · exact absurd hok hthrown
    · rw [heq]
      exact ⟨rfl, rfl, rfl, rfl, rfl⟩
  · intro hr
    rw [handleFold_of_hand w hp hr]
  · intro hr h1 h2
    obtain ⟨ps, e1⟩ := EvaluateHand_isSome w.playerHand h1
    obtain ⟨ss, e2⟩ := EvaluateHand_isSome w.satoshisHand h2
    rw [handlePlay_of_scores w ps ss hp e1 e2 hr]

/-- C13 witness: Showdown and Fold on the example worker in round 5. -/
theorem showdown_fold_effect_witness :
    exampleWorkerInRound.playerHand ≠ [] ∧
    (handlePlay exampleWorkerInRound).thrown = none ∧
    (handlePlay exampleWorkerInRound).worker.round = 5 + 1 ∧
    (handleFold exampleWorkerInRound).thrown = none ∧
    (handleFold exampleWorkerInRound).worker.round = 5 + 1 ∧
    (handleFold exampleWorkerInRound).worker.deck = exampleWorkerInRound.deck :=
  have h := showdown_fold_effect exampleWorkerInRound (by decide)
  have hplay := h.2.2.2 (by decide) (by decide) (by decide)
  have hfold := h.2.2.1 (by decide)
  ⟨by decide, hplay, (h.1 hplay).1, hfold, (h.2.1 hfold).1, (h.2.1 hfold).2.2.2.1⟩

/-- C14: Showdown and Fold fail with the no-active-hand error exactly when the player hand is
empty, and then leave the worker, hence the session, unchanged. -/
theorem noActiveHand_iff (w : PokerWorker) :
    ((∃ e : Exn, (handlePlay w).thrown = some e ∧ isNoActiveHand e) ↔ w.playerHand = []) ∧
    ((∃ e : Exn, (handleFold w).thrown = some e ∧ isNoActiveHand e) ↔ w.playerHand = []) ∧
    ((∃ e : Exn, (handlePlay w).thrown = some e ∧ isNoActiveHand e) →
      (handlePlay w).worker = w ∧ (handlePlay w).worker.session = w.session) ∧
    ((∃ e : Exn, (handleFold w).thrown = some e ∧ isNoActiveHand e) →
      (handleFold w).worker = w ∧ (handleFold w).worker.session = w.session) := by
  have play_empty : w.playerHand = [] → handlePlay w = ⟨some (.JSONRPCError .RPC_MISC_ERROR
      "Player cards are not dealt! (Or a new block has been mined)"), w, none⟩ := by
    intro h
    simp only [handlePlay, h, List.isEmpty_nil, if_true]
  have fold_empty : w.playerHand = [] → handleFold w = ⟨some (.JSONRPCError .RPC_MISC_ERROR
      "Already folded, or cards not dealt"), w⟩ := by
    intro h
    simp only [handleFold, h, List.isEmpty_nil, if_true]
  have play_hand : w.playerHand ≠ [] →
      (handlePlay w).thrown = none ∨ (handlePlay w).thrown = some .undefined_behaviour := by
    intro h
    have he := isEmpty_eq_false_of_ne_nil _ h
    unfold handlePlay
    simp only [he, Bool.false_eq_true, if_false]
    cases EvaluateHand w.playerHand with
    | none => exact Or.inr rfl
    | some ps =>
      cases EvaluateHand w.satoshisHand with
      | none => exact Or.inr rfl
      | some ss =>
        dsimp only
        cases incrementInt w.round with
        | none => exact Or.inr rfl
        | some next => exact Or.inl rfl
  have fold_hand : w.playerHand ≠ [] →
      (handleFold w).thrown = none ∨ (handleFold w).thrown = some .undefined_behaviour := by
    intro h
    have he := isEmpty_eq_false_of_ne_nil _ h
    unfold handleFold
    simp only [he, Bool.false_eq_true, if_false]
    cases incrementInt w.round with
    | none => exact Or.inr rfl
    | some next => exact Or.inl rfl
  have play_iff : (∃ e : Exn, (handlePlay w).thrown = some e ∧ isNoActiveHand e) ↔
      w.playerHand = [] := by
    constructor
    · rintro ⟨e, he, hno⟩
      by_contra hne
      rcases play_hand hne with h | h
      · rw [h] at he
        exact Option.noConfusion he
      · rw [h] at he
        simp only [Option.some.injEq] at he
        subst he
        revert hno
        decide
    · intro h
      rw [play_empty h]
      exact ⟨_, rfl, Or.inl rfl⟩
  have fold_iff : (∃ e : Exn, (handleFold w).thrown = some e ∧ isNoActiveHand e) ↔
      w.playerHand = [] := by
    constructor
    · rintro ⟨e, he, hno⟩
      by_contra hne
      rcases fold_hand hne with h | h
      · rw [h] at he
        exact Option.noConfusion he
      · rw [h] at he
        simp only [Option.some.injEq] at he
        subst he
        revert hno
        decide
    · intro h
      rw [fold_empty h]
      exact ⟨_, rfl, Or.inr rfl⟩
  refine ⟨play_iff, fold_iff, ?_, ?_⟩
  · intro h
    have hw : (handlePlay w).worker = w := by rw [play_empty (play_iff.1 h)]
    exact ⟨hw, by rw [hw]⟩
  · intro h
    have hw : (handleFold w).worker = w := by rw [fold_empty (fold_iff.1 h)]
    exact ⟨hw, by rw [hw]⟩

theorem dealOne_Stop (w : PokerWorker) :
    dealOne (Stop w) = ⟨(dealOne w).thrown, Stop (dealOne w).worker⟩ := by
  unfold dealOne Stop
  dsimp only
  cases h1 : w.deck.getLast? with
  | none => rfl
  | some c1 =>
    dsimp only
    cases h2 : w.deck.dropLast.getLast? with
    | none => rfl
    | some c2 => rfl

theorem dealLoop_Stop (n : Nat) (w : PokerWorker) :
    dealLoop n (Stop w) = ⟨(dealLoop n w).thrown, Stop (dealLoop n w).worker⟩ := by
  induction n generalizing w with
  | zero => rfl
  | succ n ih =>
    simp only [dealLoop]
    rw [dealOne_Stop]
    cases hd : dealOne w with
    | mk thrown worker =>
      cases thrown with
      | none => exact ih worker
      | some e => rfl

theorem handleDeal_Stop (w : PokerWorker) :
    handleDeal (Stop w) = ⟨(handleDeal w).thrown, Stop (handleDeal w).worker⟩ := by
  unfold handleDeal DealCards
  have hd : (Stop w).deck = w.deck := rfl
  have hh : (Stop w).playerHand = w.playerHand := rfl
  rw [hd, hh]
  split_ifs
  · rfl
  · rfl
  · rfl
  · exact dealLoop_Stop 3 ⟨[], [], w.deck, w.currentBlockHash, w.round, w.m_running,
      w.m_shutdown, w.m_node⟩

theorem handlePlay_Stop (w : PokerWorker) :
    handlePlay (Stop w) = ⟨(handlePlay w).thrown, Stop (handlePlay w).worker,
      (handlePlay w).report⟩ := by
  unfold handlePlay
  have h1 : (Stop w).playerHand = w.playerHand := rfl
  have h2 : (Stop w).satoshisHand = w.satoshisHand := rfl
  have h3 : (Stop w).round = w.round := rfl
  rw [h1, h2, h3]
  split_ifs
  · rfl
  · dsimp only
    cases EvaluateHand w.playerHand with
    | none => rfl
    | some ps =>
      cases EvaluateHand w.satoshisHand with
      | none => rfl
      | some ss =>
        dsimp only
        cases incrementInt w.round with
        | none => rfl
        | some next => rfl

theorem handleFold_Stop (w : PokerWorker) :
    handleFold (Stop w) = ⟨(handleFold w).thrown, Stop (handleFold w).worker⟩ := by
  unfold handleFold
  have h1 : (Stop w).playerHand = w.playerHand := rfl
  have h3 : (Stop w).round = w.round := rfl
  rw [h1, h3]
  split_ifs
  · rfl
  · cases incrementInt w.round with
    | none => rfl
    | some next => rfl

/-- C15, as amended: Deal, Showdown and Fold do not consult the running flag. After Stop each
of them throws exactly what it throws on the running engine and changes the session in exactly
the same way; Stop itself leaves the session unchanged, and only the tip change is skipped
once the engine is stopped. -/
theorem transitions_after_Stop (w : PokerWorker) :
    (Stop w).session = w.session ∧
    ((handleDeal (Stop w)).thrown = (handleDeal w).thrown ∧
      (handleDeal (Stop w)).worker.session = (handleDeal w).worker.session) ∧
    ((handlePlay (Stop w)).thrown = (handlePlay w).thrown ∧
      (handlePlay (Stop w)).report = (handlePlay w).report ∧
      (handlePlay (Stop w)).worker.session = (handlePlay w).worker.session) ∧
    ((handleFold (Stop w)).thrown = (handleFold w).thrown ∧
      (handleFold (Stop w)).worker.session = (handleFold w).worker.session) ∧
    (∀ (lib : Library) (new_tip : CBlockIndex) (is_ibd : Bool),
      ActiveTipChange lib new_tip is_ibd (Stop w) = Stop w) := by
  refine ⟨rfl, ?_, ?_, ?_, ?_⟩
  · rw [handleDeal_Stop]
    exact ⟨rfl, rfl⟩
  · rw [handlePlay_Stop]
    exact ⟨rfl, rfl, rfl⟩
  · rw [handleFold_Stop]
    exact ⟨rfl, rfl⟩
  · intro lib new_tip is_ibd
    unfold ActiveTipChange
    cases is_ibd <;> simp [Stop]

/-- C15 counterexample: after a tip change on the initial example worker and then Stop, a Deal
does not fail; it hands out six of the 52 cards and changes the session. -/
theorem transitions_after_Stop_counterexample :
    ¬ ((handleDeal (Stop (ActiveTipChange exampleLibrary exampleTip false
          exampleWorkerInitial))).thrown ≠ none ∧
        (handleDeal (Stop (ActiveTipChange exampleLibrary exampleTip false
          exampleWorkerInitial))).worker.session
          = (Stop (ActiveTipChange exampleLibrary exampleTip false
              exampleWorkerInitial)).session) := by
  intro h
  have hre := ActiveTipChange_session_of_running exampleLibrary exampleTip
    exampleWorkerInitial rfl rfl
  obtain ⟨_, f2, f3, _, _⟩ := reseeded_fields _ exampleLibrary _ hre
  obtain ⟨rest, c6, c5, c4, c3, c2, c1, _, hd⟩ := handleDeal_of_six _ f3 (by omega)
  apply h.1
  rw [handleDeal_Stop, hd]

/-! ## Claims on the deck order, the mutex and the order of the cards in a hand -/

/-- C18: whatever the deck held before, `GenerateDeck` leaves exactly 52 pairwise distinct
cards in suit-major, rank-ascending order: the card at index `13 * s + (r - 2)` has rank `r`
and suit `s`, for every suit `s` in 0..3 and rank `r` in 2..14. Nothing but the deck changes,
and a second call gives the same deck. -/
theorem GenerateDeck_order (w : PokerWorker) :
    (GenerateDeck w).deck.length = 52 ∧
    (GenerateDeck w).deck.Nodup ∧
    (∀ s r : Nat, s < 4 → 2 ≤ r → r ≤ 14 →
      (GenerateDeck w).deck[13 * s + (r - 2)]? = some ⟨(r : Int), (s : Int)⟩) ∧
    (GenerateDeck w).deck = canonicalDeck ∧
    GenerateDeck (GenerateDeck w) = GenerateDeck w ∧
    GenerateDeck w = { w with deck := (GenerateDeck w).deck } := by
  refine ⟨?_, ?_, ?_, GenerateDeck_deck w, rfl, rfl⟩
  · rw [GenerateDeck_deck]; exact canonicalDeck_length
  · rw [GenerateDeck_deck]; exact canonicalDeck_nodup
  · intro s r hs h2 h14
    rw [GenerateDeck_deck]
    interval_cases s <;> interval_cases r <;> rfl

/-- C19: the handlers do not hold the mutex of the session while they use it. `handlePlay` and
`handleFold` never take it, `DealCards` reads the size of the deck before taking it, and
`handleDeal` reads the deck and the player hand before `DealCards` takes it; only
`ActiveTipChange` keeps every access inside the lock. -/
theorem handlers_access_outside_lock (w : PokerWorker) :
    lockHeldThroughout false (handlePlayEvents w) = false ∧
    lockHeldThroughout false (handleFoldEvents w) = false ∧
    lockHeldThroughout false (DealCardsEvents w) = false ∧
    lockHeldThroughout false (handleDealEvents w) = false ∧
    (∀ is_ibd : Bool, lockHeldThroughout false (ActiveTipChangeEvents is_ibd w) = true) ∧
    lockHeldThroughout false (handleFoldEvents exampleWorkerInRound) = false ∧
    lockHeldThroughout false (handleFoldEvents
      (run exampleLibrary [.reseed exampleTip false, .deal] exampleWorkerInitial)) = false := by
  refine ⟨?_, ?_, ?_, ?_, ?_, by decide, ?_⟩
  rotate_right
  · unfold handleFoldEvents
    split_ifs <;> rfl
  · unfold handlePlayEvents
    split_ifs <;> rfl
  · unfold handleFoldEvents
    split_ifs <;> rfl
  · unfold DealCardsEvents
    split_ifs <;> rfl
  · unfold handleDealEvents
    split_ifs <;> rfl
  · intro is_ibd
    unfold ActiveTipChangeEvents
    split_ifs <;> rfl

theorem sortDescending_perm (l1 l2 : List Int) (h : List.Perm l1 l2) :
    sortDescending l1 = sortDescending l2 := by
  unfold sortDescending
  haveI : IsTotal Int (fun a b => b ≤ a) := ⟨fun a b => le_total b a⟩
  haveI : IsTrans Int (fun a b => b ≤ a) := ⟨fun _ _ _ hab hbc => le_trans hbc hab⟩
  haveI : IsAntisymm Int (fun a b => b ≤ a) := ⟨fun _ _ hab hba => le_antisymm hba hab⟩
  apply List.eq_of_perm_of_sorted _ (List.sorted_insertionSort _ l1)
    (List.sorted_insertionSort _ l2)
  exact ((List.perm_insertionSort _ l1).trans h).trans (List.perm_insertionSort _ l2).symm

theorem specFlush_perm (a b c x y z : Card) (h : List.Perm [a, b, c] [x, y, z]) :
    specFlush a b c ↔ specFlush x y z := by
  have mx := (h.mem_iff (a := x)).2 (by simp)
  have my := (h.mem_iff (a := y)).2 (by simp)
  have mz := (h.mem_iff (a := z)).2 (by simp)
  have ma := (h.mem_iff (a := a)).1 (by simp)
  have mb := (h.mem_iff (a := b)).1 (by simp)
  have mc := (h.mem_iff (a := c)).1 (by simp)
  simp only [List.mem_cons, List.mem_singleton, List.not_mem_nil, or_false] at mx my mz ma mb mc
  unfold specFlush
  constructor
  · rintro ⟨h1, h2⟩
    have hx : x.suit = a.suit := by rcases mx with e | e | e <;> rw [e] <;> omega
    have hy : y.suit = a.suit := by rcases my with e | e | e <;> rw [e] <;> omega
    have hz : z.suit = a.suit := by rcases mz with e | e | e <;> rw [e] <;> omega
    exact ⟨by omega, by omega⟩
  · rintro ⟨h1, h2⟩
    have hx : a.suit = x.suit := by rcases ma with e | e | e <;> rw [e] <;> omega
    have hy : b.suit = x.suit := by rcases mb with e | e | e <;> rw [e] <;> omega
    have hz : c.suit = x.suit := by rcases mc with e | e | e <;> rw [e] <;> omega
    exact ⟨by omega, by omega⟩

/-- C20: the score does not depend on the order of the cards: two hands of exactly three
cards that are permutations of each other have the same score, and that score exists. -/
theorem EvaluateHand_perm (hand1 hand2 : List Card) (hlen : hand1.length = 3)
    (hperm : List.Perm hand1 hand2) :
    EvaluateHand hand1 = EvaluateHand hand2 ∧ ∃ score : Int, EvaluateHand hand1 = some score := by
  refine ⟨?_, EvaluateHand_isSome hand1 (by omega)⟩
  have hlen2 : hand2.length = 3 := by rw [← hperm.length_eq]; exact hlen
  match hand1, hlen, hand2, hlen2, hperm with
  | [a, b, c], _, [x, y, z], _, hperm =>
    have hsort : sortDescending ([a, b, c].map (fun card => card.rank))
        = sortDescending ([x, y, z].map (fun card => card.rank)) :=
      sortDescending_perm _ _ (hperm.map _)
    have hflush : ((collectSuits [a, b, c]).length == 1)
        = ((collectSuits [x, y, z]).length == 1) := by
      rw [collectSuits_three, collectSuits_three]
      exact decide_eq_decide.2 (specFlush_perm a b c x y z hperm)
    unfold EvaluateHand
    simp only [hsort, hflush]

/-- C20 witness: the pair 5, 5, 2 in two orders. -/
theorem EvaluateHand_perm_witness :
    EvaluateHand [⟨5, 2⟩, ⟨2, 3⟩, ⟨5, 1⟩] = EvaluateHand [⟨2, 3⟩, ⟨5, 1⟩, ⟨5, 2⟩] :=
  (EvaluateHand_perm [⟨5, 2⟩, ⟨2, 3⟩, ⟨5, 1⟩] [⟨2, 3⟩, ⟨5, 1⟩, ⟨5, 2⟩] rfl (by decide)).1

end Poker
